import Mathlib

/-!
Verification development for the C+ → C++98 single-pass translator
(`C+.cpp`).  The program is embedded shallowly: every loop of the C++
source becomes a fuel-indexed structurally recursive function (the fuel
supplied by the wrappers always dominates the loop's iteration count, so
the wrappers compute exactly what the C++ loops compute), `std::string`
becomes `String`/`List Char`, `std::vector<Token>` becomes `List Token`,
`std::map<std::string, VarInfo>` becomes an association list with
key-based lookup and update, and `std::exit(2)` inside the lexer becomes
an `Except` error value that aborts the per-file pipeline.
-/

namespace CPlus

/-- `Token::Type` from the source. -/
inductive TokType where
  | Identifier
  | Number
  | StringLit
  | Keyword
  | Operator
  | Punct
  | Preprocessor
  | Unknown
deriving DecidableEq, Repr

/-- `struct Token`: variant tag, text, 1-based line/col of the first
character, and the scope id assigned during analysis (0 until then). -/
structure Token where
  type : TokType
  text : String
  line : Nat
  col : Nat
  scope_id : Nat
deriving DecidableEq, Repr

/-- A default token value, used where the C++ reads through a reference
that our embedding obtains from an `Option` (always at in-bounds
indices, so the default is never observed). -/
def defTok : Token := ⟨TokType.Unknown, "", 0, 0, 0⟩

/-- `struct Scope`: id, parent id (`-1` for the root), kind string
("Global","Function","Struct","Enum","Union","Block") and name. -/
structure Scope where
  id : Nat
  parent : Int
  kind : String
  name : String
deriving DecidableEq, Repr

/-- `struct VarInfo`: pointer level (999 = unknown sentinel) and array
rank. -/
structure VarInfo where
  pointer_level : Nat
  array_rank : Nat
deriving DecidableEq, Repr

/-- `struct Param`: parameter name and `*` count. -/
structure Param where
  name : String
  stars : Nat
deriving DecidableEq, Repr

/-- C-locale `isalpha` restricted to ASCII, as the source applies it to
input bytes. -/
def isAlphaChar (c : Char) : Bool :=
  (65 ≤ c.toNat && c.toNat ≤ 90) || (97 ≤ c.toNat && c.toNat ≤ 122)

/-- C-locale `isdigit`. -/
def isDigitChar (c : Char) : Bool :=
  48 ≤ c.toNat && c.toNat ≤ 57

/-- `isIdentStart` from the source: `isalpha(c) || c == '_'`. -/
def isIdentStart (c : Char) : Bool :=
  isAlphaChar c || c = '_'

/-- `isIdentChar` from the source: `isalnum(c) || c == '_'`. -/
def isIdentChar (c : Char) : Bool :=
  isAlphaChar c || isDigitChar c || c = '_'

/-- C-locale `isspace`: space, tab, newline, vertical tab, form feed,
carriage return. -/
def isSpaceChar (c : Char) : Bool :=
  c = ' ' || c = '\t' || c = '\n' || c = '\x0b' || c = '\x0c' || c = '\r'

/-- `is_op_char`: membership in `"+-*/%=&|!<>^~?:"`. -/
def is_op_char (c : Char) : Bool :=
  (['+', '-', '*', '/', '%', '=', '&', '|', '!', '<', '>', '^', '~', '?', ':']).contains c

/-- `is_punct_char`: membership in `"()\x7b\x7d[];,."`. -/
def is_punct_char (c : Char) : Bool :=
  (['(', ')', '\x7b', '\x7d', '[', ']', ';', ',', '.']).contains c

/-- `make_keywords()` from the source. -/
def make_keywords : List String :=
  ["auto", "break", "case", "char", "const",
   "continue", "default", "do", "double", "else",
   "enum", "extern", "float", "for", "goto",
   "if", "inline", "int", "long", "register",
   "return", "short", "signed", "sizeof", "static",
   "struct", "switch", "typedef", "union", "unsigned",
   "void", "volatile", "while", "bool"]

/-- `builtin_types()` from the source. -/
def builtin_types : List String :=
  ["void", "char", "short", "int", "long",
   "float", "double", "signed", "unsigned", "bool"]

/-! ## Line normalizer (`preprocess_physical_lines`) -/

/-- First loop of `preprocess_physical_lines`: walks the input by index;
a `'\r'` whose successor is `'\n'` is dropped (the `'\n'` is emitted by
the next iteration), any other `'\r'` becomes `'\n'`. -/
def normalizeCRAux : Nat → List Char → Nat → List Char
  | 0, _, _ => []
  | fuel+1, s, i =>
    match s.get? i with
    | none => []
    | some c =>
      if c = '\r' then
        if s.get? (i+1) = some '\n' then normalizeCRAux fuel s (i+1)
        else '\n' :: normalizeCRAux fuel s (i+1)
      else c :: normalizeCRAux fuel s (i+1)

/-- Second loop of `preprocess_physical_lines`: a `'\\'` immediately
followed by `'\n'` is dropped together with that newline. -/
def spliceBackslashAux : Nat → List Char → Nat → List Char
  | 0, _, _ => []
  | fuel+1, t, i =>
    match t.get? i with
    | none => []
    | some c =>
      if c = '\\' && t.get? (i+1) = some '\n' then spliceBackslashAux fuel t (i+2)
      else c :: spliceBackslashAux fuel t (i+1)

/-- `preprocess_physical_lines` from the source: CR normalization then
line-continuation splicing. -/
def preprocess_physical_lines (s : List Char) : List Char :=
  let t := normalizeCRAux (s.length + 1) s 0
  spliceBackslashAux (t.length + 1) t 0

/-- Modelled from the spec (§4.1 contract wording): replace every
`\r\n` pair and every lone `\r` by `\n`. -/
def normalizeNewlines : List Char → List Char
  | [] => []
  | [c] => if c = '\r' then ['\n'] else [c]
  | c :: d :: rest =>
    if c = '\r' then
      if d = '\n' then '\n' :: normalizeNewlines rest
      else '\n' :: normalizeNewlines (d :: rest)
    else c :: normalizeNewlines (d :: rest)

/-- Modelled from the spec (§4.1 contract wording): remove every
backslash immediately followed by `\n` together with that newline. -/
def spliceContinuations : List Char → List Char
  | [] => []
  | [c] => [c]
  | c :: d :: rest =>
    if c = '\\' then
      if d = '\n' then spliceContinuations rest
      else c :: spliceContinuations (d :: rest)
    else c :: spliceContinuations (d :: rest)

/-- Does the byte string contain a backslash immediately followed by a
newline? -/
def hasBackslashNewline : List Char → Bool
  | [] => false
  | [_] => false
  | c :: d :: rest =>
    (decide (c = '\\') && decide (d = '\n')) || hasBackslashNewline (d :: rest)

/-! ## Lexer (`lex`) -/

/-- Error raised by `std::exit(2)` on a forbidden `->`: exit code plus
the diagnostic's line and column. -/
structure LexError where
  code : Nat
  line : Nat
  col : Nat
deriving DecidableEq, Repr

/-- The two-character operator allow-list of the lexer, as char pairs. -/
def twoCharOps : List (Char × Char) :=
  [('+', '+'), ('-', '-'), ('=', '='), ('!', '='),
   ('>', '='), ('<', '='), ('+', '='), ('-', '='),
   ('*', '='), ('/', '='), ('&', '&'), ('|', '|'),
   ('&', '='), ('|', '='), ('^', '='), ('<', '<'),
   ('>', '>')]

/-- `src.substr(a, b - a)` on a character list. -/
def sub (s : List Char) (a b : Nat) : String :=
  String.mk ((s.drop a).take (b - a))

/-- Index of the first `'\n'` at or after `i` (or `s.length`): the
`while (i < src.size() && src[i] != '\n')` scans of the lexer. -/
def findNl : Nat → List Char → Nat → Nat
  | 0, _, i => i
  | fuel+1, s, i =>
    match s.get? i with
    | none => i
    | some c => if c = '\n' then i else findNl fuel s (i+1)

/-- The block-comment skip loop (`while (i + 1 < src.size())` searching
for `*/`); returns the index after the comment together with the
updated line and column.  Note the source quirk: an unterminated block
comment leaves the final character to be lexed as an ordinary token. -/
def skipBlockComment : Nat → List Char → Nat → Nat → Nat → Nat × Nat × Nat
  | 0, _, i, line, col => (i, line, col)
  | fuel+1, s, i, line, col =>
    if i + 1 < s.length then
      if s.get? i = some '\n' then skipBlockComment fuel s (i+1) (line+1) 1
      else if s.get? i = some '*' && s.get? (i+1) = some '/' then (i+2, line, col+2)
      else skipBlockComment fuel s (i+1) line (col+1)
    else (i, line, col)

/-- The string-literal scan loop, entered just after the opening quote:
a backslash consumes the next character, the scan stops after the
closing quote (or at end of input). -/
def skipStringLit : Nat → List Char → Nat → Nat → Nat → Nat × Nat × Nat
  | 0, _, i, line, col => (i, line, col)
  | fuel+1, s, i, line, col =>
    match s.get? i with
    | none => (i, line, col)
    | some d =>
      if d = '\\' then
        if i + 1 < s.length then skipStringLit fuel s (i+2) line (col+2)
        else skipStringLit fuel s (i+1) line (col+1)
      else if d = '"' then (i+1, line, col+1)
      else if d = '\n' then skipStringLit fuel s (i+1) (line+1) 1
      else skipStringLit fuel s (i+1) line (col+1)

/-- The number scan: digits with at most one `'.'`. -/
def scanNumberEnd : Nat → List Char → Nat → Bool → Nat
  | 0, _, i, _ => i
  | fuel+1, s, i, dot =>
    match s.get? i with
    | none => i
    | some d =>
      if isDigitChar d then scanNumberEnd fuel s (i+1) dot
      else if d = '.' && !dot then scanNumberEnd fuel s (i+1) true
      else i

/-- The identifier scan: identifier characters. -/
def scanIdentEnd : Nat → List Char → Nat → Nat
  | 0, _, i => i
  | fuel+1, s, i =>
    match s.get? i with
    | none => i
    | some d => if isIdentChar d then scanIdentEnd fuel s (i+1) else i

/-- The main lexer loop of `lex`, one fuel unit per iteration of the
`for (size_t i = 0; i < src.size();)` loop (every iteration advances
`i` by at least one, so `s.length + 1` units always suffice). -/
def lexAux : Nat → List Char → Nat → Nat → Nat → List Token →
    Except LexError (List Token)
  | 0, _, _, _, _, acc => Except.ok acc
  | fuel+1, s, i, line, col, acc =>
    match s.get? i with
    | none => Except.ok acc
    | some c =>
      if c = '\n' then lexAux fuel s (i+1) (line+1) 1 acc
      else if isSpaceChar c then lexAux fuel s (i+1) line (col+1) acc
      else if c = '#' then
        let j := findNl (s.length + 1) s i
        lexAux fuel s j line (col + (j - i))
          (acc ++ [⟨TokType.Preprocessor, sub s i j, line, col, 0⟩])
      else if c = '/' ∧ s.get? (i+1) = some '/' then
        let j := findNl (s.length + 1) s (i+2)
        lexAux fuel s j line (col + (j - i)) acc
      else if c = '/' ∧ s.get? (i+1) = some '*' then
        let r := skipBlockComment (s.length + 1) s (i+2) line (col+2)
        lexAux fuel s r.1 r.2.1 r.2.2 acc
      else if c = '"' then
        let r := skipStringLit (s.length + 1) s (i+1) line (col+1)
        lexAux fuel s r.1 r.2.1 r.2.2
          (acc ++ [⟨TokType.StringLit, sub s i r.1, r.2.1, col, 0⟩])
      else if isDigitChar c then
        let j := scanNumberEnd (s.length + 1) s i false
        lexAux fuel s j line (col + (j - i))
          (acc ++ [⟨TokType.Number, sub s i j, line, col, 0⟩])
      else if isIdentStart c then
        let j := scanIdentEnd (s.length + 1) s i
        let w := sub s i j
        lexAux fuel s j line (col + (j - i))
          (acc ++ [⟨if make_keywords.contains w then TokType.Keyword
                    else TokType.Identifier, w, line, col, 0⟩])
      else if is_op_char c then
        match s.get? (i+1) with
        | some c2 =>
          if c = '-' ∧ c2 = '>' then Except.error ⟨2, line, col⟩
          else if twoCharOps.contains (c, c2) then
            lexAux fuel s (i+2) line (col+2)
              (acc ++ [⟨TokType.Operator, String.mk [c, c2], line, col, 0⟩])
          else
            lexAux fuel s (i+1) line (col+1)
              (acc ++ [⟨TokType.Operator, String.mk [c], line, col, 0⟩])
        | none =>
          lexAux fuel s (i+1) line (col+1)
            (acc ++ [⟨TokType.Operator, String.mk [c], line, col, 0⟩])
      else if is_punct_char c then
        lexAux fuel s (i+1) line (col+1)
          (acc ++ [⟨TokType.Punct, String.mk [c], line, col, 0⟩])
      else
        lexAux fuel s (i+1) line (col+1)
          (acc ++ [⟨TokType.Unknown, String.mk [c], line, col, 0⟩])

/-- `lex` from the source: tokenize, or fail (exit code 2) on `->`. -/
def lex (s : List Char) : Except LexError (List Token) :=
  lexAux (s.length + 1) s 0 1 1 []

/-- Does `lex` abort the process (exit code 2)? -/
def lexFails (s : List Char) : Bool :=
  match lex s with
  | Except.error _ => true
  | Except.ok _ => false

/-! ## Token-stream helpers -/

/-- `TKIs(v, i, t)` without a text requirement. -/
def tkIs (v : List Token) (i : Nat) (ty : TokType) : Bool :=
  match v.get? i with
  | some tok => tok.type == ty
  | none => false

/-- `TKIs(v, i, t, txt)` with a text requirement. -/
def tkIsTxt (v : List Token) (i : Nat) (ty : TokType) (txt : String) : Bool :=
  match v.get? i with
  | some tok => tok.type == ty && tok.text == txt
  | none => false

/-- `is_kw`. -/
def is_kw (v : List Token) (i : Nat) (k : String) : Bool :=
  tkIsTxt v i TokType.Keyword k

/-- `is_p`. -/
def is_p (v : List Token) (i : Nat) (p : String) : Bool :=
  tkIsTxt v i TokType.Punct p

/-- `is_op`. -/
def is_opTok (v : List Token) (i : Nat) (o : String) : Bool :=
  tkIsTxt v i TokType.Operator o

/-- Text of the token at `i` (callers only use in-bounds indices). -/
def tokText (v : List Token) (i : Nat) : String :=
  ((v.get? i).map Token.text).getD ""

/-! ## Variable records -/

/-- Per-scope variable table: `std::map<std::string, VarInfo>` as an
association list with key-based access. -/
abbrev VarMap := List (String × VarInfo)

/-- `map.find(name)`. -/
def lookupVar (m : VarMap) (name : String) : Option VarInfo :=
  match m with
  | [] => none
  | (k, v) :: rest => if k = name then some v else lookupVar rest name

/-- `VarInfo& vi = scope_vars[cur][name]` followed by the strict/relaxed
recording: pointer level set if 999, else minimum; array rank maximum.
A fresh entry starts from the default `(999, 0)`, hence gets
`(stars, arrays)`. -/
def recordVar (m : VarMap) (name : String) (stars arrays : Nat) : VarMap :=
  match m with
  | [] => [(name, ⟨stars, arrays⟩)]
  | (k, v) :: rest =>
    if k = name then
      (k, ⟨if v.pointer_level = 999 then stars
           else if stars < v.pointer_level then stars else v.pointer_level,
           if arrays > v.array_rank then arrays else v.array_rank⟩) :: rest
    else (k, v) :: recordVar rest name stars arrays

/-- The parameter deposit at a function `{`: pointer level as in
`recordVar`, but the array rank is never touched (a fresh entry keeps
the default rank 0). -/
def depositParam (m : VarMap) (p : Param) : VarMap :=
  match m with
  | [] => [(p.name, ⟨p.stars, 0⟩)]
  | (k, v) :: rest =>
    if k = p.name then
      (k, ⟨if v.pointer_level = 999 then p.stars
           else if p.stars < v.pointer_level then p.stars else v.pointer_level,
           v.array_rank⟩) :: rest
    else (k, v) :: depositParam rest p

/-- Deposit a parameter list into a scope's variable table, in order. -/
def depositParams (ps : List Param) (m : VarMap) : VarMap :=
  ps.foldl depositParam m

/-! ## `looks_like_func_signature` -/

/-- The `while (Keyword || "*" || "&") ++i` specifier skip. -/
def skipSpecifiers : Nat → List Token → Nat → Nat
  | 0, _, i => i
  | fuel+1, tk, i =>
    if tkIs tk i TokType.Keyword || is_opTok tk i "*" || is_opTok tk i "&" then
      skipSpecifiers fuel tk (i+1)
    else i

/-- The parenthesis-matching loop of `looks_like_func_signature`:
starting at the `(` itself with depth 0, find the index whose `)`
returns the depth to 0 (`none` if the scan runs off the end). -/
def findParenClose : Nat → List Token → Nat → Nat → Option Nat
  | 0, _, _, _ => none
  | fuel+1, tk, j, depth =>
    if j < tk.length then
      if is_p tk j "(" then findParenClose fuel tk (j+1) (depth+1)
      else if is_p tk j ")" then
        if depth = 1 then some j else findParenClose fuel tk (j+1) (depth-1)
      else findParenClose fuel tk (j+1) depth
    else none

/-- The `while (Keyword || Identifier || "*" || "&") ++j` trailer skip
after the parameter list. -/
def skipFnTrailer : Nat → List Token → Nat → Nat
  | 0, _, j => j
  | fuel+1, tk, j =>
    if tkIs tk j TokType.Keyword || tkIs tk j TokType.Identifier ||
       is_opTok tk j "*" || is_opTok tk j "&" then
      skipFnTrailer fuel tk (j+1)
    else j

/-- Result of `looks_like_func_signature`: name index, optional `{`
index (the C++ `-1` becomes `none`), and the `(`/`)` indices. -/
structure FnSig where
  i_name : Nat
  i_lbrace : Option Nat
  lp : Nat
  rp : Nat
deriving DecidableEq, Repr

/-- `looks_like_func_signature(tk, i_type, ...)`. -/
def looks_like_func_signature (tk : List Token) (i_type : Nat) : Option FnSig :=
  let i := skipSpecifiers (tk.length + 1) tk (i_type + 1)
  if tkIs tk i TokType.Identifier then
    if is_p tk (i+1) "(" then
      match findParenClose (tk.length + 1) tk (i+1) 0 with
      | some rp =>
        if rp + 1 < tk.length then
          let j := skipFnTrailer (tk.length + 1) tk (rp + 1)
          some ⟨i, if is_p tk j "\x7b" then some j else none, i + 1, rp⟩
        else none
      | none => none
    else none
  else none

/-! ## `parse_params` -/

/-- The shared "token at `i` starts a type" test (an identifier in the
known-type set, or a builtin-type keyword, or `struct`/`enum`/`union`).
Used verbatim at lines 460–467 and 625–631 of the source. -/
def typeStartAt (t : Token) (known : List String) : Bool :=
  (t.type == TokType.Identifier && known.contains t.text) ||
  (t.type == TokType.Keyword &&
    (builtin_types.contains t.text || t.text == "struct" ||
     t.text == "enum" || t.text == "union"))

/-- `while (j < bound && (Keyword || Identifier)) ++j`. -/
def skipKwIdentRun : Nat → List Token → Nat → Nat → Nat
  | 0, _, _, j => j
  | fuel+1, tk, bound, j =>
    if j < bound && (tkIs tk j TokType.Keyword || tkIs tk j TokType.Identifier) then
      skipKwIdentRun fuel tk bound (j+1)
    else j

/-- `while (j < bound && is_op(tk, j, "*")) { ++stars; ++j; }`:
returns the star count and the index after the run. -/
def countStars : Nat → List Token → Nat → Nat → Nat × Nat
  | 0, _, _, j => (0, j)
  | fuel+1, tk, bound, j =>
    if j < bound && is_opTok tk j "*" then
      let r := countStars fuel tk bound (j+1)
      (r.1 + 1, r.2)
    else (0, j)

/-- `while (j < bound && !is_p(tk, j, "]")) ++j`. -/
def scanToRBracket : Nat → List Token → Nat → Nat → Nat
  | 0, _, _, j => j
  | fuel+1, tk, bound, j =>
    if j < bound && !(is_p tk j "]") then scanToRBracket fuel tk bound (j+1)
    else j

/-- The parameter `[...]`-suffix skip of `parse_params` (brackets are
skipped, not counted). -/
def skipBracketGroups : Nat → List Token → Nat → Nat → Nat
  | 0, _, _, j => j
  | fuel+1, tk, bound, j =>
    if j < bound && is_p tk j "[" then
      let k := scanToRBracket (tk.length + 1) tk bound j
      if k < bound then skipBracketGroups fuel tk bound (k+1) else k
    else j

/-- `while (j < rp && !is_p(tk, j, ",")) ++j`. -/
def skipToComma : Nat → List Token → Nat → Nat → Nat
  | 0, _, _, j => j
  | fuel+1, tk, rp, j =>
    if j < rp && !(is_p tk j ",") then skipToComma fuel tk rp (j+1)
    else j

/-- The per-parameter tail of a `parse_params` iteration, entered at
the first token after the type prefix: count stars, take the parameter
name, skip `[...]` suffixes, skip to the comma.  Returns the index the
loop resumes at and the recognized parameter (if any). -/
def paramDeclTail (tk : List Token) (rp j : Nat) : Nat × Option Param :=
  let r := countStars (tk.length + 1) tk rp j
  let stars := r.1
  let j2 := r.2
  if j2 < rp && tkIs tk j2 TokType.Identifier then
    let name := tokText tk j2
    let j4 := skipBracketGroups (tk.length + 1) tk rp (j2 + 1)
    let j5 := skipToComma (2 * tk.length + 2) tk rp j4
    (j5, some ⟨name, stars⟩)
  else (j2, none)

/-- The main loop of `parse_params`, one fuel unit per iteration. -/
def parse_paramsAux : Nat → List Token → Nat → List String → Nat →
    List Param → List Param
  | 0, _, _, _, _, acc => acc
  | fuel+1, tk, rp, known, i, acc =>
    if i < rp then
      if is_p tk i "," then parse_paramsAux fuel tk rp known (i+1) acc
      else
        let ts :=
          match tk.get? i with
          | some t => typeStartAt t known
          | none => false
        if !ts then parse_paramsAux fuel tk rp known (i+1) acc
        else
          let tail :=
            if is_kw tk i "struct" || is_kw tk i "enum" || is_kw tk i "union" then
              if i + 1 < rp && tkIs tk (i+1) TokType.Identifier then
                some (paramDeclTail tk rp (i+2))
              else none
            else some (paramDeclTail tk rp (skipKwIdentRun (tk.length + 1) tk rp i))
          match tail with
          | none => parse_paramsAux fuel tk rp known (i+1) acc
          | some (j5, p?) =>
            parse_paramsAux fuel tk rp known j5
              (match p? with
               | some p => acc ++ [p]
               | none => acc)
    else acc

/-- `parse_params(tk, lp, rp, out, known_types)`. -/
def parse_params (tk : List Token) (lp rp : Nat) (known : List String) :
    List Param :=
  parse_paramsAux (2 * tk.length + 2) tk rp known (lp + 1) []

/-! ## `detect_relaxed_declaration` -/

/-- Result of `detect_relaxed_declaration`: the lookahead index and the
declarator's name, star count and bracket count. -/
structure RelaxedDecl where
  j_out : Nat
  name : String
  stars : Nat
  arrays : Nat
deriving DecidableEq, Repr

/-- The relaxed-path `[...]`-suffix loop: for each `[`, search for the
first `]` strictly to its right; stop (without counting) if the search
hits the end of the stream.  Returns the index after the suffixes and
the bracket-group count. -/
def relaxedArrays : Nat → List Token → Nat → Nat → Nat × Nat
  | 0, _, j, arrays => (j, arrays)
  | fuel+1, tk, j, arrays =>
    if is_p tk j "[" then
      let k := scanToRBracket (tk.length + 1) tk tk.length (j+1)
      if k = tk.length then (j, arrays)
      else relaxedArrays fuel tk (k+1) (arrays+1)
    else (j, arrays)

/-- `detect_relaxed_declaration(tk, i, ...)`: the generic declarator
shape `(IDENT | (struct|enum|union) IDENT) (kw|IDENT)* (*)* IDENT
([..])*` with lookahead in `{ ; , [ = { }`. -/
def detect_relaxed_declaration (tk : List Token) (i : Nat) :
    Option RelaxedDecl :=
  match tk.get? i with
  | none => none
  | some t0 =>
    if !(t0.type == TokType.Identifier ||
        (t0.type == TokType.Keyword &&
          (t0.text == "struct" || t0.text == "enum" || t0.text == "union"))) then
      none
    else
      let j1? : Option Nat :=
        if t0.type == TokType.Keyword then
          if tkIs tk (i+1) TokType.Identifier then some (i+2) else none
        else some (i+1)
      match j1? with
      | none => none
      | some j1 =>
        let j2 := skipKwIdentRun (tk.length + 1) tk tk.length j1
        let r := countStars (tk.length + 1) tk tk.length j2
        let stars := r.1
        let j3 := r.2
        if tkIs tk j3 TokType.Identifier then
          let name := tokText tk j3
          let ra := relaxedArrays (tk.length + 1) tk (j3+1) 0
          let j4 := ra.1
          let arrays := ra.2
          if is_p tk j4 ";" || is_p tk j4 "," || is_p tk j4 "[" ||
             is_opTok tk j4 "=" || is_p tk j4 "\x7b" then
            some ⟨j4, name, stars, arrays⟩
          else none
        else none

/-! ## Scope & declaration analysis (`analyze_scopes_and_vars`) -/

/-- The strict-path array-suffix loop (lines 677–681 of the source):
for each `[`, advance to the next `]` (or the end) and past it; the
group is counted even if unterminated. -/
def strictArrays : Nat → List Token → Nat → Nat → Nat × Nat
  | 0, _, j, arrays => (j, arrays)
  | fuel+1, tk, j, arrays =>
    if is_p tk j "[" then
      let k := scanToRBracket (tk.length + 1) tk tk.length j
      let j2 := if k < tk.length then k + 1 else k
      strictArrays fuel tk j2 (arrays + 1)
    else (j, arrays)

/-- The strict declarator-list loop (lines 666–694): `(*)* IDENT
([..])*` separated by commas, recording each declarator. -/
def strictDeclLoop : Nat → List Token → Nat → VarMap → Bool → VarMap × Bool
  | 0, _, _, vars, handled => (vars, handled)
  | fuel+1, tk, j, vars, handled =>
    let r := countStars (tk.length + 1) tk tk.length j
    let stars := r.1
    let j1 := r.2
    match tk.get? j1 with
    | none => (vars, handled)
    | some t =>
      if t.type == TokType.Identifier then
        let sa := strictArrays (tk.length + 1) tk (j1 + 1) 0
        let j2 := sa.1
        let arrays := sa.2
        let vars2 := recordVar vars t.text stars arrays
        if is_p tk j2 "," then strictDeclLoop fuel tk (j2 + 1) vars2 true
        else (vars2, true)
      else (vars, handled)

/-- The `typedef` forward scan (lines 597–603): the last identifier
strictly before the first `;` or `}` after the `typedef` keyword. -/
def typedefScanAux : Nat → List Token → Nat → Option String → Option String
  | 0, _, _, acc => acc
  | fuel+1, tk, j, acc =>
    match tk.get? j with
    | none => acc
    | some t =>
      if t.type == TokType.Punct && (t.text == ";" || t.text == "\x7d") then acc
      else
        typedefScanAux fuel tk (j+1)
          (if t.type == TokType.Identifier then some t.text else acc)

/-- The name a `typedef` at index `i` adds to the known-type set. -/
def typedefTarget (tk : List Token) (i : Nat) : Option String :=
  typedefScanAux (tk.length + 1) tk (i+1) none

/-- `std::set<std::string>::insert`. -/
def insertKnown (s : List String) (x : String) : List String :=
  if s.contains x then s else s ++ [x]

/-- `params_at_lbrace[key] = ps` (overwrite-or-insert by key). -/
def upsertParams (m : List (Nat × List Param)) (key : Nat) (ps : List Param) :
    List (Nat × List Param) :=
  match m with
  | [] => [(key, ps)]
  | (k, v) :: rest =>
    if k = key then (k, ps) :: rest else (k, v) :: upsertParams rest key ps

/-- `params_at_lbrace.find(key)`. -/
def lookupParams (m : List (Nat × List Param)) (key : Nat) :
    Option (List Param) :=
  match m with
  | [] => none
  | (k, v) :: rest => if k = key then some v else lookupParams rest key

/-- The analyzer's mutable state: the scope array (index = id), the
parallel per-scope variable tables, the known-type set, the current
scope id, the pending (kind, name) pair, the parameter deposit map, and
the scope ids assigned to the tokens processed so far (in order). -/
structure AnaState where
  scopes : List Scope
  scope_vars : List VarMap
  known_types : List String
  cur : Nat
  pending_kind : String
  pending_name : String
  params_at : List (Nat × List Param)
  scope_ids : List Nat
deriving Repr

/-- Variable table of scope `c`. -/
def getVars (st : AnaState) (c : Nat) : VarMap :=
  (st.scope_vars.get? c).getD []

/-- Parent id of scope `c` (non-root scopes store their parent's id;
callers guard `c ≠ 0`). -/
def parentOf (scopes : List Scope) (c : Nat) : Nat :=
  match scopes.get? c with
  | some s => s.parent.toNat
  | none => 0

/-- Analyzer sub-step: `tk[i].scope_id = cur`. -/
def stepScopeId (st : AnaState) : AnaState :=
  { st with scope_ids := st.scope_ids ++ [st.cur] }

/-- Analyzer sub-step: typedef observation (the last identifier before
the first `;` or `}` joins the known-type set). -/
def stepTypedef (tk : List Token) (i : Nat) (st : AnaState) : AnaState :=
  if is_kw tk i "typedef" then
    match typedefTarget tk i with
    | some nm => { st with known_types := insertKnown st.known_types nm }
    | none => st
  else st

/-- Analyzer sub-step: tag observation — a `struct`/`enum`/`union`
followed by an identifier adds that tag to the known-type set, and in
any case sets the pending scope kind (and name if present). -/
def stepTag (tk : List Token) (i : Nat) (st : AnaState) : AnaState :=
  if is_kw tk i "struct" || is_kw tk i "enum" || is_kw tk i "union" then
    let st :=
      if tkIs tk (i+1) TokType.Identifier then
        { st with known_types := insertKnown st.known_types (tokText tk (i+1)) }
      else st
    { st with
      pending_kind :=
        if is_kw tk i "struct" then "Struct"
        else if is_kw tk i "enum" then "Enum"
        else "Union",
      pending_name :=
        if tkIs tk (i+1) TokType.Identifier then tokText tk (i+1) else "" }
  else st

/-- Analyzer sub-step: function-signature detection (pending :=
Function, parameter deposit at the `{` index) and, failing that, the
strict declaration path.  Returns the state and the `handled_decl`
flag. -/
def stepSigDecls (tk : List Token) (i : Nat) (st : AnaState) : AnaState × Bool :=
  let ts :=
    match tk.get? i with
    | some t => typeStartAt t st.known_types
    | none => false
  let sig := if ts then looks_like_func_signature tk i else none
  let st :=
    match sig with
    | some fs =>
      match fs.i_lbrace with
      | some lb =>
        { st with
          pending_kind := "Function",
          pending_name := tokText tk fs.i_name,
          params_at := upsertParams st.params_at lb
            (parse_params tk fs.lp fs.rp st.known_types) }
      | none => st
    | none => st
  if ts then
    match sig with
    | some _ => (st, false)
    | none =>
      let j0 :=
        if is_kw tk i "struct" || is_kw tk i "enum" || is_kw tk i "union" then
          if tkIs tk (i+1) TokType.Identifier then i + 2 else i
        else skipKwIdentRun (tk.length + 1) tk tk.length i
      let r := strictDeclLoop (tk.length + 1) tk j0 (getVars st st.cur) false
      ({ st with scope_vars := st.scope_vars.set st.cur r.1 }, r.2)
  else (st, false)

/-- Analyzer sub-step: the relaxed declaration path (only when the
strict path recorded nothing and the token is an identifier). -/
def stepRelaxed (tk : List Token) (i : Nat) (p : AnaState × Bool) : AnaState :=
  let st := p.1
  if !p.2 && tkIs tk i TokType.Identifier then
    match detect_relaxed_declaration tk i with
    | some rd =>
      { st with
        scope_vars := st.scope_vars.set st.cur
          (recordVar (getVars st st.cur) rd.name rd.stars rd.arrays) }
    | none => st
  else st

/-- Analyzer sub-step: scope open at `{` — a new scope with the pending
kind (default Block) and name, a fresh variable table into which any
parameter deposit keyed by this `{` is drained, and a cleared pending
pair. -/
def stepOpen (tk : List Token) (i : Nat) (st : AnaState) : AnaState :=
  if is_p tk i "\x7b" then
    let sid := st.scopes.length
    let sc : Scope :=
      ⟨sid, Int.ofNat st.cur,
       if st.pending_kind = "" then "Block" else st.pending_kind,
       st.pending_name⟩
    let newVars : VarMap :=
      depositParams ((lookupParams st.params_at i).getD []) []
    { st with
      scopes := st.scopes ++ [sc],
      scope_vars := st.scope_vars ++ [newVars],
      cur := sid,
      pending_kind := "", pending_name := "" }
  else st

/-- Analyzer sub-step: scope close at `}`. -/
def stepClose (tk : List Token) (i : Nat) (st : AnaState) : AnaState :=
  if is_p tk i "\x7d" then
    { st with
      cur := if st.cur ≠ 0 then parentOf st.scopes st.cur else st.cur,
      pending_kind := "", pending_name := "" }
  else st

/-- One iteration of the analyzer's token loop, in source order:
assign the scope id; typedef observation; tag observation; function
signature detection and strict declarations; relaxed declarations;
scope open at `{`; scope close at `}`. -/
def anaStep (tk : List Token) (i : Nat) (st : AnaState) : AnaState :=
  stepClose tk i (stepOpen tk i (stepRelaxed tk i
    (stepSigDecls tk i (stepTag tk i (stepTypedef tk i (stepScopeId st))))))

/-- The analyzer's token loop. -/
def analyzeAux : Nat → List Token → Nat → AnaState → AnaState
  | 0, _, _, st => st
  | fuel+1, tk, i, st =>
    if i < tk.length then analyzeAux fuel tk (i+1) (anaStep tk i st) else st

/-- Initial analyzer state: the Global root scope and the caller's
known-type set. -/
def initAnaState (known : List String) : AnaState :=
  ⟨[⟨0, -1, "Global", ""⟩], [[]], known, 0, "", "", [], []⟩

/-- `analyze_scopes_and_vars(tk, scopes, scope_vars, known_types)`. -/
def analyze_scopes_and_vars (tk : List Token) (known : List String) : AnaState :=
  analyzeAux (tk.length + 1) tk 0 (initAnaState known)

/-- Write the analyzer's per-token scope ids back into the tokens
(the in-place `tk[i].scope_id = cur` of the source). -/
def assignScopes (tk : List Token) (ids : List Nat) : List Token :=
  tk.zipWith (fun t sid => { t with scope_id := sid }) ids

/-! ## `resolve_ptr_level` and the token-stream passes -/

/-- The scope-chain walk of `resolve_ptr_level` (`while (cur != -1)`).
Fuel dominates the chain length: the analyzer only creates scopes whose
parent id is strictly smaller, so `scopes.length + 1` units suffice. -/
def resolve_ptr_level_aux : Nat → List Scope → List VarMap → Int → String →
    Nat × Nat
  | 0, _, _, _, _ => (999, 0)
  | fuel+1, scopes, svars, cur, name =>
    if cur = -1 then (999, 0)
    else
      match lookupVar ((svars.get? cur.toNat).getD []) name with
      | some vi => (vi.pointer_level, vi.array_rank)
      | none =>
        resolve_ptr_level_aux fuel scopes svars
          (match scopes.get? cur.toNat with
           | some s => s.parent
           | none => -1) name

/-- `resolve_ptr_level(scopes, scope_vars, scope_id, name, rank_out)`:
pointer level (999 if not found) and array rank (0 if not found). -/
def resolve_ptr_level (scopes : List Scope) (svars : List VarMap)
    (scope_id : Nat) (name : String) : Nat × Nat :=
  resolve_ptr_level_aux (scopes.length + 1) scopes svars (Int.ofNat scope_id) name

/-- The scope ids visited by the `resolve_ptr_level` walk, in order. -/
def scopeChain : Nat → List Scope → Int → List Nat
  | 0, _, _ => []
  | fuel+1, scopes, cur =>
    if cur = -1 then []
    else
      cur.toNat ::
        scopeChain fuel scopes
          (match scopes.get? cur.toNat with
           | some s => s.parent
           | none => -1)

/-- `remove_semicolons_inside_enums`: drop every `;` whose scope has
kind `Enum`. -/
def remove_semicolons_inside_enums (toks : List Token) (scopes : List Scope) :
    List Token :=
  toks.filter fun t =>
    !(t.type == TokType.Punct && t.text == ";" &&
      (match scopes.get? t.scope_id with
       | some sc => sc.kind == "Enum"
       | none => false))

/-- Is the scope of this `}` of kind Struct, Union or Enum (with the
source's bounds guard)? -/
def typeKindAt (scopes : List Scope) (sid : Nat) : Bool :=
  match scopes.get? sid with
  | some sc => sc.kind == "Struct" || sc.kind == "Union" || sc.kind == "Enum"
  | none => false

/-- The lookahead of `add_semicolon_after_type_blocks`: skip
Preprocessor tokens, then test for Identifier / `*` / `(` / `[` / `;`. -/
def declaratorFollows : List Token → Bool
  | [] => false
  | t :: rest =>
    if t.type == TokType.Preprocessor then declaratorFollows rest
    else
      t.type == TokType.Identifier ||
      (t.type == TokType.Operator && t.text == "*") ||
      (t.type == TokType.Punct &&
        (t.text == "(" || t.text == "[" || t.text == ";"))

/-- `add_semicolon_after_type_blocks`: after each `}` of a
Struct/Union/Enum scope with no declarator lookahead, insert a `;`
token (a copy of the `}` with type/text changed).  The source's index
loop inserts at `i + 1` and then skips the inserted token, which is
exactly this recursion: the lookahead is computed on the original
suffix and the scan resumes right after the `}`. -/
def add_semicolon_after_type_blocks (scopes : List Scope) :
    List Token → List Token
  | [] => []
  | t :: rest =>
    if t.type == TokType.Punct && t.text == "\x7d" &&
       typeKindAt scopes t.scope_id && !declaratorFollows rest then
      t :: { t with type := TokType.Punct, text := ";" } ::
        add_semicolon_after_type_blocks scopes rest
    else t :: add_semicolon_after_type_blocks scopes rest

/-- The accumulator loop of `split_into_lines`. -/
def splitLinesAux : List Token → Nat → List Token → Nat →
    List (List Token × Nat)
  | [], _, accLine, accSid => [(accLine, accSid)]
  | t :: rest, current, accLine, accSid =>
    if t.line = current then splitLinesAux rest current (accLine ++ [t]) accSid
    else (accLine, accSid) :: splitLinesAux rest t.line [t] t.scope_id

/-- `split_into_lines(toks, byline, line_scope)`: group consecutive
tokens sharing a source line; each group is tagged with its first
token's scope id. -/
def split_into_lines (toks : List Token) : List (List Token × Nat) :=
  match toks with
  | [] => []
  | t :: _ => splitLinesAux toks t.line [] t.scope_id

/-- Does the line (excluding its last token) contain a `=` Operator? -/
def lineHasEq (line : List Token) : Bool :=
  line.dropLast.any fun t => t.type == TokType.Operator && t.text == "="

/-- Does the line (excluding its last token) contain a `{` Punct? -/
def lineHasLBrace (line : List Token) : Bool :=
  line.dropLast.any fun t => t.type == TokType.Punct && t.text == "\x7b"

/-- Does the line contain an `if`/`for`/`while`/`switch` keyword? -/
def lineHasCtrl (line : List Token) : Bool :=
  line.any fun t =>
    t.type == TokType.Keyword &&
    (t.text == "if" || t.text == "for" || t.text == "while" || t.text == "switch")

/-- `needs_semicolon(line, scope_kind)`. -/
def needs_semicolon (line : List Token) (scope_kind : String) : Bool :=
  match line.head? with
  | none => false
  | some first =>
    if scope_kind == "Enum" then false
    else
      let last := line.getLastD defTok
      if first.type == TokType.Preprocessor then false
      else if last.type == TokType.Punct && last.text == "\x7d" then
        lineHasEq line && lineHasLBrace line
      else if last.type == TokType.Punct &&
              (last.text == "\x7b" || last.text == ";") then false
      else if lineHasCtrl line && last.type == TokType.Punct &&
              last.text == ")" then false
      else if last.type == TokType.Identifier || last.type == TokType.Number ||
              last.type == TokType.StringLit ||
              (last.type == TokType.Punct &&
                (last.text == ")" || last.text == "]")) then true
      else false

/-! ## Member-chain rewriter (`rewrite_member_chains`) -/

/-- `std::vector::insert(begin() + n, x)` (our inserts are always at
in-range positions). -/
def insertAt : List Token → Nat → Token → List Token
  | l, 0, x => x :: l
  | [], _+1, x => [x]
  | h :: t, n+1, x => h :: insertAt t n x

/-- In-place update of the token at index `n`. -/
def modifyAt : List Token → Nat → (Token → Token) → List Token
  | [], _, _ => []
  | h :: t, 0, f => f h :: t
  | h :: t, n+1, f => h :: modifyAt t n f

/-- The bracket-matching scan of the postfix walk: starting at the
opening token itself with depth 0, the index whose closer returns the
depth to 0 (`none` if the line ends first). -/
def findMatch : Nat → List Token → Nat → Nat → String → String → Option Nat
  | 0, _, _, _, _, _ => none
  | fuel+1, line, k, depth, opn, cls =>
    if k < line.length then
      if tkIsTxt line k TokType.Punct opn then
        findMatch fuel line (k+1) (depth+1) opn cls
      else if tkIsTxt line k TokType.Punct cls then
        if depth = 1 then some k else findMatch fuel line (k+1) (depth-1) opn cls
      else findMatch fuel line (k+1) depth opn cls
    else none

/-- The postfix walk over `[...]` and `(...)` groups: a subscript
decrements the array rank if positive, else the pointer depth if
positive; a call group changes nothing; a mismatched bracket stops the
walk.  Returns the cursor and the updated (pointer, array) depths. -/
def postfixWalk : Nat → List Token → Nat → Nat → Nat → Nat × Nat × Nat
  | 0, _, j, p, a => (j, p, a)
  | fuel+1, line, j, cur_ptr, cur_arr =>
    if tkIsTxt line j TokType.Punct "[" then
      match findMatch (line.length + 1) line j 0 "[" "]" with
      | some k =>
        if cur_arr > 0 then postfixWalk fuel line (k+1) cur_ptr (cur_arr - 1)
        else if cur_ptr > 0 then postfixWalk fuel line (k+1) (cur_ptr - 1) cur_arr
        else postfixWalk fuel line (k+1) cur_ptr cur_arr
      | none => (j, cur_ptr, cur_arr)
    else if tkIsTxt line j TokType.Punct "(" then
      match findMatch (line.length + 1) line j 0 "(" ")" with
      | some k => postfixWalk fuel line (k+1) cur_ptr cur_arr
      | none => (j, cur_ptr, cur_arr)
    else (j, cur_ptr, cur_arr)

/-- The `. IDENT` walk (lines 960–991 of the source).  `i` is the
(fixed) index of the base identifier; at each `.`+Identifier pair:
depth 1 turns the `.` into `->`; depth above 1 inserts `(` and `*` at
`i`, a `)` at the shifted `j`, turns the `.` into `->`, and decrements
the depth; depth 0 leaves the pair alone.  Returns the edited line and
the final cursor. -/
def dotWalk : Nat → List Token → Nat → Nat → Nat → List Token × Nat
  | 0, line, _, j, _ => (line, j)
  | fuel+1, line, i, j, cur_ptr =>
    if j + 1 < line.length && tkIsTxt line j TokType.Punct "." &&
       tkIs line (j+1) TokType.Identifier then
      if cur_ptr = 1 then
        dotWalk fuel
          (modifyAt line j fun t => { t with type := TokType.Operator, text := "->" })
          i (j+2) cur_ptr
      else if cur_ptr > 1 then
        let base := (line.get? i).getD defTok
        let dotT := (line.get? j).getD defTok
        let lpar := { base with type := TokType.Punct, text := "(" }
        let star := { base with type := TokType.Operator, text := "*" }
        let rpar := { dotT with type := TokType.Punct, text := ")" }
        let line1 := insertAt line i lpar
        let line2 := insertAt line1 (i+1) star
        let j2 := j + 2
        let line3 := insertAt line2 j2 rpar
        let j3 := j2 + 1
        let line4 :=
          modifyAt line3 j3 fun t => { t with type := TokType.Operator, text := "->" }
        dotWalk fuel line4 i (j3 + 2) (cur_ptr - 1)
      else dotWalk fuel line i (j+2) cur_ptr
    else (line, j)

/-- One fuel unit per iteration of the outer `for (size_t i ...)` loop
of `rewrite_member_chains`; each iteration resumes at the cursor the
dot walk returned. -/
def rewriteAux : Nat → List Scope → List VarMap → Nat → List Token → Nat →
    List Token
  | 0, _, _, _, line, _ => line
  | fuel+1, scopes, svars, sid, line, i =>
    match line.get? i with
    | none => line
    | some t =>
      if t.type == TokType.Identifier then
        let r := resolve_ptr_level scopes svars sid t.text
        let ptr := r.1
        let base_arrays := r.2
        if ptr = 999 && base_arrays = 0 then
          rewriteAux fuel scopes svars sid line (i+1)
        else
          let cur_ptr := if ptr = 999 then 0 else ptr
          let pw := postfixWalk (line.length + 1) line (i+1) cur_ptr base_arrays
          let dw := dotWalk (line.length + 1) line i pw.1 pw.2.1
          rewriteAux fuel scopes svars sid dw.1 (if dw.2 > 0 then dw.2 else i + 1)
      else rewriteAux fuel scopes svars sid line (i+1)

/-- `rewrite_member_chains(line, scope_id, scopes, scope_vars)`. -/
def rewrite_member_chains (scopes : List Scope) (svars : List VarMap)
    (sid : Nat) (line : List Token) : List Token :=
  rewriteAux (4 * line.length + 4) scopes svars sid line 0

/-! ## Semicolon insertion and emission -/

/-- The scan of `insert_semicolon_before_closing_brace_on_line`
(from index 1; after an insertion the scan resumes past the `}`). -/
def insertBeforeBraceAux : Nat → List Token → Nat → List Token
  | 0, line, _ => line
  | fuel+1, line, i =>
    if i < line.length then
      if tkIsTxt line i TokType.Punct "\x7d" then
        let prev := (line.get? (i-1)).getD defTok
        if prev.type == TokType.Punct &&
           (prev.text == ";" || prev.text == "\x7b") then
          insertBeforeBraceAux fuel line (i+1)
        else
          let need :=
            (prev.type == TokType.Identifier || prev.type == TokType.Number ||
             prev.type == TokType.StringLit) ||
            (prev.type == TokType.Punct &&
              (prev.text == ")" || prev.text == "]")) ||
            prev.type == TokType.Operator
          if need then
            insertBeforeBraceAux fuel
              (insertAt line i { prev with type := TokType.Punct, text := ";" })
              (i+2)
          else insertBeforeBraceAux fuel line (i+1)
      else insertBeforeBraceAux fuel line (i+1)
    else line

/-- `insert_semicolon_before_closing_brace_on_line(line, scope_kind)`. -/
def insert_semicolon_before_closing_brace_on_line (line : List Token)
    (scope_kind : String) : List Token :=
  if scope_kind == "Enum" then line
  else insertBeforeBraceAux (2 * line.length + 2) line 1

/-- The token loop of `emit_line`: a space before every token except at
the start of the line and before a `,`/`)`/`]`/`;` Punct; a
Preprocessor token flushes the line and ends it (dropping any remaining
tokens, as the source returns). -/
def emitAux : List Token → Bool → String → String
  | [], _, out => out ++ "\n"
  | t :: rest, bol, out =>
    if t.type == TokType.Preprocessor then
      (if !bol then out ++ "\n" else out) ++ t.text ++ "\n"
    else
      let space :=
        !bol && !(t.type == TokType.Punct &&
          (t.text == "," || t.text == ")" || t.text == "]" || t.text == ";"))
      emitAux rest false (out ++ (if space then " " else "") ++ t.text)

/-- `emit_line(line, os)`: the text this line contributes to the
output, including its trailing newline. -/
def emit_line (line : List Token) : String :=
  match line with
  | [] => "\n"
  | _ => emitAux line true ""

/-! ## The per-file pipeline (`main`'s per-file body) -/

/-- The per-line processing of `main`: member-chain rewrite, `;` before
mid-line `}`, then the trailing-`;` test and append. -/
def processLine (scopes : List Scope) (svars : List VarMap)
    (pr : List Token × Nat) : List Token :=
  let sid := pr.2
  let line := rewrite_member_chains scopes svars sid pr.1
  let kind :=
    match scopes.get? sid with
    | some sc => sc.kind
    | none => "Global"
  let line := insert_semicolon_before_closing_brace_on_line line kind
  if !line.isEmpty && needs_semicolon line kind then
    let lastT := line.getLastD defTok
    line ++ [⟨TokType.Punct, ";", lastT.line, lastT.col + 1, 0⟩]
  else line

/-- The whole per-file translation: normalize, lex (may exit 2),
analyze, strip enum semicolons, terminate type blocks, split into
lines, rewrite and terminate each line, emit.  The known-type set
starts from the builtins (first/only file of the invocation). -/
def translate (input : String) : Except LexError String :=
  let pre := preprocess_physical_lines input.data
  match lex pre with
  | Except.error e => Except.error e
  | Except.ok toks =>
    let st := analyze_scopes_and_vars toks builtin_types
    let toks := assignScopes toks st.scope_ids
    let toks := remove_semicolons_inside_enums toks st.scopes
    let toks := add_semicolon_after_type_blocks st.scopes toks
    let lines := split_into_lines toks
    Except.ok (String.join (lines.map fun pr => emit_line (processLine st.scopes st.scope_vars pr)))

/-- Did the per-file translation produce an output file? -/
def translateSucceeds (input : String) : Bool :=
  match translate input with
  | Except.ok _ => true
  | Except.error _ => false

/-! ## Spec-side definitions used to state the claims -/

/-- The `*/`-search used by the claim-side scan below: index just past
the first `*/` at or after `i` (end of input if none). -/
def skipToCommentClose : Nat → List Char → Nat → Nat
  | 0, _, i => i
  | fuel+1, s, i =>
    match s.get? i with
    | none => i
    | some c =>
      if c = '*' ∧ s.get? (i+1) = some '/' then i + 2
      else skipToCommentClose fuel s (i+1)

/-- Modelled from the claim C2 wording "contains the two-character
sequence `->` outside a comment and outside a string literal": scan
left to right, skipping `//` comments to the end of the line, `/* */`
comments to their closer, and `"` string literals (with `\` escapes);
report a `-` immediately followed by `>` anywhere else. -/
def arrowOutsideAux : Nat → List Char → Nat → Bool
  | 0, _, _ => false
  | fuel+1, s, i =>
    match s.get? i with
    | none => false
    | some c =>
      if c = '/' ∧ s.get? (i+1) = some '/' then
        arrowOutsideAux fuel s (findNl (s.length + 1) s (i+2))
      else if c = '/' ∧ s.get? (i+1) = some '*' then
        arrowOutsideAux fuel s (skipToCommentClose (s.length + 1) s (i+2))
      else if c = '"' then
        arrowOutsideAux fuel s (skipStringLit (s.length + 1) s (i+1) 1 1).1
      else if c = '-' ∧ s.get? (i+1) = some '>' then true
      else arrowOutsideAux fuel s (i+1)

/-- "The input contains `->` outside a comment and outside a string
literal" (the condition of claim C2 as stated). -/
def arrowOutsideCommentOrString (s : List Char) : Bool :=
  arrowOutsideAux (s.length + 1) s 0

/-- The amended C2 condition: the same scan the lexer performs, with
its two further blind spots — `#` preprocessor lines are skipped to the
end of the line, and a `-` that pairs with a preceding `-` into a `--`
operator is consumed with it (so the `>` of `-->` never follows a fresh
`-`).  Comments, string literals and preprocessor lines are skipped by
the very same helper scans the lexer uses. -/
def arrowScanAux : Nat → List Char → Nat → Bool
  | 0, _, _ => false
  | fuel+1, s, i =>
    match s.get? i with
    | none => false
    | some c =>
      if c = '#' then arrowScanAux fuel s (findNl (s.length + 1) s i)
      else if c = '/' ∧ s.get? (i+1) = some '/' then
        arrowScanAux fuel s (findNl (s.length + 1) s (i+2))
      else if c = '/' ∧ s.get? (i+1) = some '*' then
        arrowScanAux fuel s (skipBlockComment (s.length + 1) s (i+2) 1 1).1
      else if c = '"' then
        arrowScanAux fuel s (skipStringLit (s.length + 1) s (i+1) 1 1).1
      else if c = '-' ∧ s.get? (i+1) = some '>' then true
      else if c = '-' ∧ s.get? (i+1) = some '-' then arrowScanAux fuel s (i+2)
      else arrowScanAux fuel s (i+1)

/-- The amended C2 condition at the start of the input. -/
def hasForbiddenArrow (s : List Char) : Bool :=
  arrowScanAux (s.length + 1) s 0

/-- Did the lexer take its error exit? -/
def isLexErr : Except LexError (List Token) → Bool
  | Except.error _ => true
  | Except.ok _ => false

/-- A character that none of the special branches of the arrow scan
react to: advancing over it is a plain one-position step. -/
def PlainChar (c : Char) : Prop :=
  c ≠ '#' ∧ c ≠ '/' ∧ c ≠ '"' ∧ c ≠ '-'

/-- Modelled from the claim C4 wording, as stated: the conjunction of
the claim's bullets (note the final bullet excludes a line whose last
token is a `}`, which is what the counterexample exploits). -/
def claimedNeedsSemicolon (line : List Token) (scope_kind : String) : Bool :=
  match line.head? with
  | none => false
  | some first =>
    let last := line.getLastD defTok
    !(scope_kind == "Enum") &&
    !(first.type == TokType.Preprocessor) &&
    !(last.type == TokType.Punct && (last.text == "\x7b" || last.text == ";")) &&
    (!(last.type == TokType.Punct && last.text == "\x7d") ||
      (lineHasEq line && lineHasLBrace line)) &&
    (!(lineHasCtrl line) || !(last.type == TokType.Punct && last.text == ")")) &&
    (last.type == TokType.Identifier || last.type == TokType.Number ||
     last.type == TokType.StringLit ||
     (last.type == TokType.Punct && (last.text == ")" || last.text == "]")))

/-- The amended C4 condition: as claimed, except that the final
token-category bullet also admits a line ending in `}` that has a `=`
Operator and a `{` Punct earlier (the initializer-list case). -/
def amendedNeedsSemicolon (line : List Token) (scope_kind : String) : Bool :=
  match line.head? with
  | none => false
  | some first =>
    let last := line.getLastD defTok
    !(scope_kind == "Enum") &&
    !(first.type == TokType.Preprocessor) &&
    !(last.type == TokType.Punct && (last.text == "\x7b" || last.text == ";")) &&
    (!(last.type == TokType.Punct && last.text == "\x7d") ||
      (lineHasEq line && lineHasLBrace line)) &&
    (!(lineHasCtrl line) || !(last.type == TokType.Punct && last.text == ")")) &&
    (last.type == TokType.Identifier || last.type == TokType.Number ||
     last.type == TokType.StringLit ||
     (last.type == TokType.Punct && (last.text == ")" || last.text == "]")) ||
     (last.type == TokType.Punct && last.text == "\x7d" &&
       (lineHasEq line && lineHasLBrace line)))

/-- The separator the amended C7 rule places before a token: empty
before `,` `)` `]` `;`, one space otherwise. -/
def specSep (t : Token) : String :=
  if t.type == TokType.Punct &&
     (t.text == "," || t.text == ")" || t.text == "]" || t.text == ";") then ""
  else " "

/-- Tail of the amended C7 join: separator before each token. -/
def specJoinRest : List Token → String
  | [] => ""
  | t :: rest => specSep t ++ t.text ++ specJoinRest rest

/-- Modelled from the amended C7 wording: concatenate the tokens with
exactly one space between adjacent tokens, except no space before a
`,`/`)`/`]`/`;` Punct and no leading space. -/
def specJoinTokens : List Token → String
  | [] => ""
  | t :: rest => t.text ++ specJoinRest rest

/-! # Theorems -/

/-- C1 (counterexample): on the single-file input `Vec2* p\np.x = 3\n`
the translator does not write the claimed output
`Vec2* p;\np->x = 3;\n` — the claim, as stated, is false on this
concrete input. -/
theorem C1_counterexample :
    translate "Vec2* p\np.x = 3\n" ≠ Except.ok "Vec2* p;\np->x = 3;\n" := by
  intro h
  rw [show translate "Vec2* p\np.x = 3\n" =
        Except.ok "Vec2 * p;\np . x = 3;\n" from rfl] at h
  simp at h

/-- C1 (amended): on the input `Vec2* p\np.x = 3\n` (with `Vec2`
unknown) the translator writes exactly `Vec2 * p;\np . x = 3;\n`: the
relaxed declaration detector does not fire (the token after the
declarator `p` is the next line's identifier, not one of
`;`/`,`/`[`/`=`/`{`), so `p` is never recorded and the `.` is not
rewritten; each of the two lines receives a terminating `;`, and the
emitter separates adjacent tokens with single spaces (none before the
`;`).  The second conjunct exhibits the empty Global variable table. -/
theorem C1_amended_output :
    translate "Vec2* p\np.x = 3\n" = Except.ok "Vec2 * p;\np . x = 3;\n" ∧
    (analyze_scopes_and_vars
        ((lex (preprocess_physical_lines "Vec2* p\np.x = 3\n".data)).toOption.getD [])
        builtin_types).scope_vars = [[]] :=
  ⟨rfl, rfl⟩

/-- The emitter loop away from the start of a line appends the
separator-prefixed text of every remaining token. -/
lemma emitAux_spec : ∀ (l : List Token) (out : String),
    (∀ t ∈ l, t.type ≠ TokType.Preprocessor) →
    emitAux l false out = out ++ (specJoinRest l ++ "\n") := by
  intro l
  induction l with
  | nil =>
    intro out _
    simp [emitAux, specJoinRest]
  | cons t rest ih =>
    intro out h
    have ht : t.type ≠ TokType.Preprocessor := h t (by simp)
    have htb : (t.type == TokType.Preprocessor) = false := by
      simp [ht]
    have hrest : ∀ u ∈ rest, u.type ≠ TokType.Preprocessor := by
      intro u hu; exact h u (by simp [hu])
    rw [emitAux, htb]
    simp only [Bool.false_eq_true, if_false, Bool.not_true, Bool.not_false,
      Bool.true_and]
    rw [ih _ hrest]
    rw [specJoinRest, specSep]
    by_cases hc : (t.type == TokType.Punct &&
        (t.text == "," || t.text == ")" || t.text == "]" || t.text == ";")) = true
    · rw [hc]
      simp [String.append_assoc]
    · rw [Bool.not_eq_true] at hc
      rw [hc]
      simp [String.append_assoc]

/-- C7 (counterexample): the emitter puts a space on both sides of a
`.` token — the text `a . b`, not the claimed `a.b` — because the
`(`/`[`/`.`/`->` adjacency branches of `emit_line` have empty bodies. -/
theorem C7_counterexample :
    emit_line [⟨TokType.Identifier, "a", 1, 1, 0⟩, ⟨TokType.Punct, ".", 1, 2, 0⟩,
               ⟨TokType.Identifier, "b", 1, 3, 0⟩] = "a . b\n" ∧
    ("a . b\n" : String) ≠ "a.b\n" :=
  ⟨rfl, by decide⟩

/-- C7 (amended): when the emitter renders a line without Preprocessor
tokens, exactly one space separates every pair of adjacent tokens
except that no space is placed before a `,`, `)`, `]` or `;` Punct and
no leading space starts the line; the claimed additional exceptions
(after `(`/`[`, around `.`, around `->`) are not applied. -/
theorem C7_amended_spacing : ∀ line : List Token,
    (∀ t ∈ line, t.type ≠ TokType.Preprocessor) →
    emit_line line = specJoinTokens line ++ "\n" := by
  intro line h
  cases line with
  | nil => simp [emit_line, specJoinTokens]
  | cons t rest =>
    have ht : t.type ≠ TokType.Preprocessor := h t (by simp)
    have htb : (t.type == TokType.Preprocessor) = false := by
      simp [ht]
    have hrest : ∀ u ∈ rest, u.type ≠ TokType.Preprocessor := by
      intro u hu; exact h u (by simp [hu])
    show emitAux (t :: rest) true "" = _
    rw [emitAux, htb]
    simp only [Bool.false_eq_true, if_false, Bool.not_true, Bool.false_and,
      Bool.and_self]
    rw [emitAux_spec rest _ hrest]
    simp [specJoinTokens, String.append_assoc]

/-- C7 (witness for the amended theorem). -/
theorem C7_amended_spacing_witness :
    emit_line [⟨TokType.Identifier, "a", 1, 1, 0⟩, ⟨TokType.Punct, ".", 1, 2, 0⟩,
               ⟨TokType.Identifier, "b", 1, 3, 0⟩] =
      specJoinTokens [⟨TokType.Identifier, "a", 1, 1, 0⟩, ⟨TokType.Punct, ".", 1, 2, 0⟩,
               ⟨TokType.Identifier, "b", 1, 3, 0⟩] ++ "\n" :=
  C7_amended_spacing _ (by decide)

/-- A list at an index holding `c` splits as `c` plus the rest. -/
lemma get?_drop_cons {α : Type} : ∀ (s : List α) (i : Nat) (c : α),
    s.get? i = some c → s.drop i = c :: s.drop (i+1) := by
  intro s
  induction s with
  | nil => intro i c h; simp at h
  | cons x xs ih =>
    intro i c h
    cases i with
    | zero =>
      rw [List.get?_cons_zero] at h
      injection h with h
      subst h
      rfl
    | succ n =>
      rw [List.get?_cons_succ] at h
      rw [List.drop_succ_cons]
      rw [show (x :: xs).drop (n + 1 + 1) = xs.drop (n + 1) from rfl]
      exact ih n c h

/-- `normalizeNewlines` passes a non-CR head through. -/
lemma normalizeNewlines_cons_ne : ∀ (c : Char) (l : List Char), c ≠ '\r' →
    normalizeNewlines (c :: l) = c :: normalizeNewlines l := by
  intro c l h
  cases l with
  | nil =>
    rw [show normalizeNewlines [c] = if c = '\r' then ['\n'] else [c] from rfl,
        if_neg h]
    rfl
  | cons d rest => rw [normalizeNewlines, if_neg h]

/-- `normalizeNewlines` on a CR not followed by LF emits one LF. -/
lemma normalizeNewlines_cr : ∀ l : List Char, l.head? ≠ some '\n' →
    normalizeNewlines ('\r' :: l) = '\n' :: normalizeNewlines l := by
  intro l h
  cases l with
  | nil => rfl
  | cons d rest =>
    have hd : d ≠ '\n' := by
      intro hh; exact h (by simp [hh])
    rw [normalizeNewlines, if_pos rfl, if_neg hd]

/-- `spliceContinuations` passes a head through unless it is a
backslash followed by a newline. -/
lemma spliceContinuations_cons : ∀ (c : Char) (l : List Char),
    ¬(c = '\\' ∧ l.head? = some '\n') →
    spliceContinuations (c :: l) = c :: spliceContinuations l := by
  intro c l h
  cases l with
  | nil => rfl
  | cons d rest =>
    by_cases hc : c = '\\'
    · subst hc
      have hd : d ≠ '\n' := by
        intro hh; exact h ⟨rfl, by simp [hh]⟩
      rw [spliceContinuations, if_pos rfl, if_neg hd]
    · rw [spliceContinuations, if_neg hc]

/-- The head of a dropped suffix is the element at that index. -/
lemma head?_drop_eq {α : Type} (s : List α) (i : Nat) :
    (s.drop i).head? = s.get? i := by
  cases hg : s.get? i with
  | none =>
    have hle : s.length ≤ i := List.get?_eq_none.mp hg
    rw [List.drop_eq_nil_of_le hle]
    rfl
  | some c =>
    rw [get?_drop_cons s i c hg]
    rfl

/-- The first loop of `preprocess_physical_lines` computes
`normalizeNewlines` of the remaining input. -/
lemma normalizeCRAux_eq : ∀ (fuel : Nat) (s : List Char) (i : Nat),
    s.length - i < fuel → normalizeCRAux fuel s i = normalizeNewlines (s.drop i) := by
  intro fuel
  induction fuel with
  | zero => intro s i h; exact absurd h (Nat.not_lt_zero _)
  | succ fuel ih =>
    intro s i h
    cases hg : s.get? i with
    | none =>
      have hle : s.length ≤ i := List.get?_eq_none.mp hg
      rw [List.drop_eq_nil_of_le hle]
      simp only [normalizeCRAux, hg]
      rfl
    | some c =>
      have hlen : i < s.length := by
        by_contra hh
        rw [List.get?_eq_none.mpr (by omega)] at hg
        exact Option.noConfusion hg
      have hfuel : s.length - (i+1) < fuel := by omega
      have hdrop := get?_drop_cons s i c hg
      simp only [normalizeCRAux, hg]
      by_cases hcr : c = '\r'
      · subst hcr
        rw [if_pos rfl]
        by_cases hnl : s.get? (i+1) = some '\n'
        · have hdrop2 := get?_drop_cons s (i+1) '\n' hnl
          rw [if_pos hnl, hdrop, hdrop2, ih s (i+1) hfuel, hdrop2]
          rw [normalizeNewlines, if_pos rfl, if_pos rfl]
          exact normalizeNewlines_cons_ne '\n' _ (by decide)
        · rw [if_neg hnl, hdrop, ih s (i+1) hfuel]
          rw [normalizeNewlines_cr]
          rw [head?_drop_eq]
          exact hnl
      · rw [if_neg hcr, hdrop, ih s (i+1) hfuel,
            normalizeNewlines_cons_ne c _ hcr]

/-- The second loop of `preprocess_physical_lines` computes
`spliceContinuations` of the remaining input. -/
lemma spliceBackslashAux_eq : ∀ (fuel : Nat) (t : List Char) (i : Nat),
    t.length - i < fuel → spliceBackslashAux fuel t i = spliceContinuations (t.drop i) := by
  intro fuel
  induction fuel with
  | zero => intro t i h; exact absurd h (Nat.not_lt_zero _)
  | succ fuel ih =>
    intro t i h
    cases hg : t.get? i with
    | none =>
      have hle : t.length ≤ i := List.get?_eq_none.mp hg
      rw [List.drop_eq_nil_of_le hle]
      simp only [spliceBackslashAux, hg]
      rfl
    | some c =>
      have hlen : i < t.length := by
        by_contra hh
        rw [List.get?_eq_none.mpr (by omega)] at hg
        exact Option.noConfusion hg
      have hdrop := get?_drop_cons t i c hg
      simp only [spliceBackslashAux, hg]
      by_cases hbs : c = '\\' ∧ t.get? (i+1) = some '\n'
      · obtain ⟨hc, hnl⟩ := hbs
        subst hc
        have hdrop2 := get?_drop_cons t (i+1) '\n' hnl
        have hfuel2 : t.length - (i+2) < fuel := by omega
        have hcond : (decide (('\\' : Char) = '\\') && decide (t.get? (i+1) = some '\n')) = true := by
          rw [hnl]
          decide
        rw [hcond, if_pos rfl, hdrop, hdrop2, ih t (i+2) hfuel2]
        rw [spliceContinuations, if_pos rfl, if_pos rfl]
      · have hcond : (decide (c = '\\') && decide (t.get? (i+1) = some '\n')) = false := by
          rcases Decidable.em (c = '\\') with hc | hc
          · rcases Decidable.em (t.get? (i+1) = some '\n') with hn | hn
            · exact absurd ⟨hc, hn⟩ hbs
            · rw [decide_eq_false hn, Bool.and_false]
          · rw [decide_eq_false hc, Bool.false_and]
        have hfuel1 : t.length - (i+1) < fuel := by omega
        rw [hcond]
        simp only [Bool.false_eq_true, if_false]
        rw [hdrop, ih t (i+1) hfuel1, spliceContinuations_cons]
        intro hcn
        refine hbs ⟨hcn.1, ?_⟩
        have := hcn.2
        rw [head?_drop_eq] at this
        exact this

/-- `normalizeNewlines` is the identity on CR-free input. -/
lemma normalizeNewlines_id : ∀ u : List Char, '\r' ∉ u →
    normalizeNewlines u = u := by
  intro u
  induction u with
  | nil => intro _; rfl
  | cons c rest ih =>
    intro h
    have hc : c ≠ '\r' := by
      intro hh; exact h (by simp [hh])
    rw [normalizeNewlines_cons_ne c rest hc, ih (fun hm => h (by simp [hm]))]

/-- `spliceContinuations` is the identity when no backslash is
immediately followed by a newline. -/
lemma spliceContinuations_id : ∀ u : List Char, hasBackslashNewline u = false →
    spliceContinuations u = u := by
  intro u
  induction u with
  | nil => intro _; rfl
  | cons c rest ih =>
    intro h
    cases rest with
    | nil => rfl
    | cons d rest2 =>
      rw [hasBackslashNewline] at h
      simp only [Bool.or_eq_false_iff, Bool.and_eq_false_iff] at h
      obtain ⟨h1, h2⟩ := h
      have hnot : ¬(c = '\\' ∧ (d :: rest2).head? = some '\n') := by
        intro hcn
        obtain ⟨hc, hn⟩ := hcn
        simp at hn
        rcases h1 with h1 | h1 <;> simp [hc, hn] at h1
      rw [spliceContinuations_cons c (d :: rest2) hnot, ih h2]

/-- C8 (counterexample): the normalizer is not idempotent — on
`\\ \ \n \n` (two backslashes, then two newlines) one application gives
`\ \n` and a second application gives the empty string, because
removing the continuation makes the first backslash adjacent to the
remaining newline. -/
theorem C8_counterexample :
    preprocess_physical_lines (preprocess_physical_lines ("\\\\\n\n".data)) ≠
      preprocess_physical_lines ("\\\\\n\n".data) := by
  intro h
  rw [show preprocess_physical_lines ("\\\\\n\n".data) = "\\\n".data from rfl] at h
  rw [show preprocess_physical_lines ("\\\n".data) = [] from rfl] at h
  simp at h

/-- C8 (amended): the line normalizer replaces every `\r\n` pair and
every lone `\r` with `\n` and then removes every backslash that is (by
then) immediately followed by `\n` together with that newline, and
makes no other edits — it equals the composition of those two spec
transformations; and it is the identity (hence idempotent) on strings
that contain no `\r` and no backslash-newline pair, which the claimed
unconditional idempotence fails to be (the removal of a continuation
can create a new backslash-newline pair). -/
theorem C8_amended_normalizer :
    (∀ s : List Char,
      preprocess_physical_lines s = spliceContinuations (normalizeNewlines s)) ∧
    (∀ u : List Char, '\r' ∉ u → hasBackslashNewline u = false →
      preprocess_physical_lines u = u) := by
  constructor
  · intro s
    show spliceBackslashAux _ _ 0 = _
    rw [spliceBackslashAux_eq _ _ 0 (by omega), List.drop_zero,
        normalizeCRAux_eq _ s 0 (by omega), List.drop_zero]
  · intro u hcr hbs
    have h1 : normalizeCRAux (u.length + 1) u 0 = u := by
      rw [normalizeCRAux_eq _ u 0 (by omega), List.drop_zero,
          normalizeNewlines_id u hcr]
    show spliceBackslashAux ((normalizeCRAux (u.length + 1) u 0).length + 1)
        (normalizeCRAux (u.length + 1) u 0) 0 = u
    rw [h1, spliceBackslashAux_eq _ u 0 (by omega), List.drop_zero,
        spliceContinuations_id u hbs]

/-- C8 (witness for the amended theorem). -/
theorem C8_amended_normalizer_witness :
    preprocess_physical_lines ("int x\n".data) = "int x\n".data :=
  C8_amended_normalizer.2 _ (by decide) (by decide)

/-- `declaratorFollows` over a Preprocessor head skips it. -/
lemma declaratorFollows_cons_pre : ∀ (t : Token) (l : List Token),
    (t.type == TokType.Preprocessor) = true →
    declaratorFollows (t :: l) = declaratorFollows l := by
  intro t l h
  rw [declaratorFollows]
  simp only [h, if_true]

/-- `declaratorFollows` over a non-Preprocessor head depends only on
that head. -/
lemma declaratorFollows_cons_ne : ∀ (t : Token) (l : List Token),
    (t.type == TokType.Preprocessor) = false →
    declaratorFollows (t :: l) =
      (t.type == TokType.Identifier ||
       (t.type == TokType.Operator && t.text == "*") ||
       (t.type == TokType.Punct &&
         (t.text == "(" || t.text == "[" || t.text == ";"))) := by
  intro t l h
  rw [declaratorFollows]
  simp only [h]
  simp only [Bool.false_eq_true, if_false]

/-- The type-block pass leaves the first non-Preprocessor lookahead of
a token list unchanged. -/
lemma declaratorFollows_addSemis : ∀ (scopes : List Scope) (l : List Token),
    declaratorFollows (add_semicolon_after_type_blocks scopes l) =
      declaratorFollows l := by
  intro scopes l
  induction l with
  | nil => rfl
  | cons t rest ih =>
    rw [add_semicolon_after_type_blocks]
    by_cases hp : (t.type == TokType.Preprocessor) = true
    · have ht : t.type = TokType.Preprocessor := by simpa using hp
      have hcond : (t.type == TokType.Punct && t.text == "\x7d" &&
          typeKindAt scopes t.scope_id && !declaratorFollows rest) = false := by
        simp [ht]
      rw [hcond]
      simp only [Bool.false_eq_true, if_false]
      rw [declaratorFollows_cons_pre t _ hp, declaratorFollows_cons_pre t _ hp, ih]
    · have hpb : (t.type == TokType.Preprocessor) = false := by
        simpa using hp
      split
      · rw [declaratorFollows_cons_ne t _ hpb, declaratorFollows_cons_ne t _ hpb]
      · rw [declaratorFollows_cons_ne t _ hpb, declaratorFollows_cons_ne t _ hpb]

/-- C5: the type-block terminator pass.  (1) For every `}` token whose
scope kind is Struct, Union or Enum, a `;` is inserted immediately
after it iff the next non-Preprocessor token is not an Identifier, not
a `*` Operator and not a `(`/`[`/`;` Punct; (2) the one-line struct
input of the spec gains exactly its terminating `;` through the full
pipeline; (3) the pass is idempotent, so running it on an
already-terminated type definition makes no change. -/
theorem C5_type_block_terminator :
    (∀ (scopes : List Scope) (t : Token) (rest : List Token),
      t.type = TokType.Punct → t.text = "\x7d" →
      typeKindAt scopes t.scope_id = true →
      add_semicolon_after_type_blocks scopes (t :: rest) =
        t :: (if declaratorFollows rest then [] else
                [{ t with type := TokType.Punct, text := ";" }]) ++
          add_semicolon_after_type_blocks scopes rest) ∧
    translate "struct S \x7b int x; int y; \x7d\n" =
      Except.ok "struct S \x7b int x; int y; \x7d;\n" ∧
    (∀ (scopes : List Scope) (toks : List Token),
      add_semicolon_after_type_blocks scopes
          (add_semicolon_after_type_blocks scopes toks) =
        add_semicolon_after_type_blocks scopes toks) := by
  refine ⟨?_, rfl, ?_⟩
  · intro scopes t rest hty htx hkind
    rw [add_semicolon_after_type_blocks]
    by_cases hd : declaratorFollows rest = true
    · have hcond : (t.type == TokType.Punct && t.text == "\x7d" &&
          typeKindAt scopes t.scope_id && !declaratorFollows rest) = false := by
        simp [hd]
      rw [hcond]
      simp [hd]
    · have hcond : (t.type == TokType.Punct && t.text == "\x7d" &&
          typeKindAt scopes t.scope_id && !declaratorFollows rest) = true := by
        simp [hty, htx, hkind, hd]
      rw [hcond]
      simp [hd]
  · intro scopes toks
    induction toks with
    | nil => rfl
    | cons t rest ih =>
      rw [add_semicolon_after_type_blocks]
      by_cases hc : (t.type == TokType.Punct && t.text == "\x7d" &&
          typeKindAt scopes t.scope_id && !declaratorFollows rest) = true
      · rw [if_pos hc]
        rw [add_semicolon_after_type_blocks]
        have hfollow : declaratorFollows
            ({ t with type := TokType.Punct, text := ";" } ::
              add_semicolon_after_type_blocks scopes rest) = true := by
          rw [declaratorFollows]
          simp
        have hc2 : (t.type == TokType.Punct && t.text == "\x7d" &&
            typeKindAt scopes t.scope_id &&
            !declaratorFollows ({ t with type := TokType.Punct, text := ";" } ::
              add_semicolon_after_type_blocks scopes rest)) = false := by
          rw [hfollow]
          simp
        rw [hc2]
        simp only [Bool.false_eq_true, if_false]
        congr 1
        rw [add_semicolon_after_type_blocks]
        have hc3 : (({ t with type := TokType.Punct, text := ";" } :
            Token).type == TokType.Punct &&
            ({ t with type := TokType.Punct, text := ";" } : Token).text == "\x7d" &&
            typeKindAt scopes ({ t with type := TokType.Punct, text := ";" } :
              Token).scope_id &&
            !declaratorFollows (add_semicolon_after_type_blocks scopes rest)) = false := by
          simp
        rw [hc3]
        simp only [Bool.false_eq_true, if_false]
        rw [ih]
      · rw [if_neg hc]
        rw [add_semicolon_after_type_blocks]
        rw [declaratorFollows_addSemis]
        rw [if_neg hc]
        rw [ih]

/-- C5 (witness): the per-`}` rule applied to a concrete Struct-scope
closer with nothing after it. -/
theorem C5_type_block_terminator_witness :
    add_semicolon_after_type_blocks
        [⟨0, -1, "Global", ""⟩, ⟨1, 0, "Struct", "S"⟩]
        [⟨TokType.Punct, "\x7d", 1, 7, 1⟩] =
      ⟨TokType.Punct, "\x7d", 1, 7, 1⟩ ::
        (if declaratorFollows [] then [] else
          [{ (⟨TokType.Punct, "\x7d", 1, 7, 1⟩ : Token) with
              type := TokType.Punct, text := ";" }]) ++
        add_semicolon_after_type_blocks
          [⟨0, -1, "Global", ""⟩, ⟨1, 0, "Struct", "S"⟩] [] :=
  C5_type_block_terminator.1 _ _ _ rfl rfl rfl

/-! ## C6: typedef observation -/

/-- `std::set` insertion preserves membership. -/
lemma insertKnown_mem : ∀ (s : List String) (x y : String),
    x ∈ s → x ∈ insertKnown s y := by
  intro s x y h
  rw [insertKnown]
  split
  · exact h
  · exact List.mem_append_left _ h

/-- `std::set` insertion establishes membership. -/
lemma insertKnown_self : ∀ (s : List String) (x : String),
    x ∈ insertKnown s x := by
  intro s x
  rw [insertKnown]
  split
  · next h => simpa using h
  · exact List.mem_append_right _ (by simp)

/-- `stepTypedef` can only grow the known-type set. -/
lemma stepTypedef_known_mono : ∀ (tk : List Token) (i : Nat) (st : AnaState)
    (x : String), x ∈ st.known_types → x ∈ (stepTypedef tk i st).known_types := by
  intro tk i st x h
  rw [stepTypedef]
  split
  · split
    · exact insertKnown_mem _ _ _ h
    · exact h
  · exact h

/-- `stepTag` can only grow the known-type set. -/
lemma stepTag_known_mono : ∀ (tk : List Token) (i : Nat) (st : AnaState)
    (x : String), x ∈ st.known_types → x ∈ (stepTag tk i st).known_types := by
  intro tk i st x h
  rw [stepTag]
  split
  · split
    · exact insertKnown_mem _ _ _ h
    · exact h
  · exact h

/-- `stepSigDecls` never touches the known-type set. -/
lemma stepSigDecls_known : ∀ (tk : List Token) (i : Nat) (st : AnaState),
    (stepSigDecls tk i st).1.known_types = st.known_types := by
  intro tk i st
  rw [stepSigDecls]
  repeat' split
  all_goals rfl

/-- `stepRelaxed` never touches the known-type set. -/
lemma stepRelaxed_known : ∀ (tk : List Token) (i : Nat) (p : AnaState × Bool),
    (stepRelaxed tk i p).known_types = p.1.known_types := by
  intro tk i p
  rw [stepRelaxed]
  split
  · split <;> rfl
  · rfl

/-- `stepOpen` never touches the known-type set. -/
lemma stepOpen_known : ∀ (tk : List Token) (i : Nat) (st : AnaState),
    (stepOpen tk i st).known_types = st.known_types := by
  intro tk i st
  rw [stepOpen]
  split <;> rfl

/-- `stepClose` never touches the known-type set. -/
lemma stepClose_known : ∀ (tk : List Token) (i : Nat) (st : AnaState),
    (stepClose tk i st).known_types = st.known_types := by
  intro tk i st
  rw [stepClose]
  split <;> rfl

/-- One analyzer step can only grow the known-type set. -/
lemma anaStep_known_mono : ∀ (tk : List Token) (i : Nat) (st : AnaState)
    (x : String), x ∈ st.known_types → x ∈ (anaStep tk i st).known_types := by
  intro tk i st x h
  rw [anaStep, stepClose_known, stepOpen_known, stepRelaxed_known,
      stepSigDecls_known]
  exact stepTag_known_mono _ _ _ _ (stepTypedef_known_mono _ _ _ _ h)

/-- The analyzer step at a `typedef` inserts the scanned name. -/
lemma anaStep_typedef_mem : ∀ (tk : List Token) (i : Nat) (st : AnaState)
    (name : String), is_kw tk i "typedef" = true →
    typedefTarget tk i = some name →
    name ∈ (anaStep tk i st).known_types := by
  intro tk i st name hkw htgt
  rw [anaStep, stepClose_known, stepOpen_known, stepRelaxed_known,
      stepSigDecls_known]
  refine stepTag_known_mono _ _ _ _ ?_
  rw [stepTypedef, if_pos hkw, htgt]
  exact insertKnown_self _ _

/-- The analyzer loop can only grow the known-type set. -/
lemma analyzeAux_known_mono : ∀ (fuel : Nat) (tk : List Token) (j : Nat)
    (st : AnaState) (x : String),
    x ∈ st.known_types → x ∈ (analyzeAux fuel tk j st).known_types := by
  intro fuel
  induction fuel with
  | zero => intro tk j st x h; exact h
  | succ fuel ih =>
    intro tk j st x h
    rw [analyzeAux]
    split
    · exact ih tk (j+1) _ x (anaStep_known_mono tk j st x h)
    · exact h

/-- Once the loop reaches a `typedef` at `i`, the scanned name is in
the final known-type set. -/
lemma analyzeAux_typedef_reached : ∀ (fuel : Nat) (tk : List Token)
    (i j : Nat) (st : AnaState) (name : String),
    j ≤ i → i < tk.length → tk.length - j < fuel →
    is_kw tk i "typedef" = true → typedefTarget tk i = some name →
    name ∈ (analyzeAux fuel tk j st).known_types := by
  intro fuel
  induction fuel with
  | zero => intro tk i j st name _ _ h; exact absurd h (Nat.not_lt_zero _)
  | succ fuel ih =>
    intro tk i j st name hji hi hfuel hkw htgt
    rw [analyzeAux]
    rw [if_pos (by omega)]
    rcases Nat.eq_or_lt_of_le hji with heq | hlt
    · subst heq
      exact analyzeAux_known_mono fuel tk (j+1) _ name
        (anaStep_typedef_mem tk j st name hkw htgt)
    · exact ih tk i (j+1) _ name hlt hi (by omega) hkw htgt

/-- C6 (counterexample): processing `typedef struct { int x; } T;`
adds `x` — the last identifier before the *first* `;` — to the
known-type set, and does not add `T`. -/
theorem C6_counterexample :
    "x" ∈ (analyze_scopes_and_vars
        ((lex "typedef struct \x7b int x; \x7d T;\n".data).toOption.getD [])
        builtin_types).known_types ∧
    "T" ∉ (analyze_scopes_and_vars
        ((lex "typedef struct \x7b int x; \x7d T;\n".data).toOption.getD [])
        builtin_types).known_types := by
  constructor
  · decide
  · decide

/-- C6 (amended): for every `typedef` statement the analyzer adds to
the known-type set the last Identifier token strictly before the
*first* `;` or `}` token that follows the `typedef` keyword (not the
statement's final terminator): whenever the scan yields a name, that
name is in the analyzer's final known-type set. -/
theorem C6_typedef_known_type : ∀ (tk : List Token) (known : List String)
    (i : Nat) (name : String),
    is_kw tk i "typedef" = true → typedefTarget tk i = some name →
    name ∈ (analyze_scopes_and_vars tk known).known_types := by
  intro tk known i name hkw htgt
  have hi : i < tk.length := by
    rw [is_kw, tkIsTxt] at hkw
    rcases hg : tk.get? i with _ | tok
    · rw [hg] at hkw; exact absurd hkw (by simp)
    · rcases List.get?_eq_some.mp hg with ⟨hlt, _⟩
      exact hlt
  exact analyzeAux_typedef_reached (tk.length + 1) tk i 0
    (initAnaState known) name (Nat.zero_le i) hi (by omega) hkw htgt

/-- C6 (witness for the amended theorem). -/
theorem C6_typedef_known_type_witness :
    "x" ∈ (analyze_scopes_and_vars
        ((lex "typedef struct \x7b int x; \x7d T;\n".data).toOption.getD [])
        builtin_types).known_types :=
  C6_typedef_known_type _ builtin_types 0 "x" rfl rfl

/-! ## Step lemmas for the member-chain rewriter -/

/-- `rewriteAux` stops past the end of the line. -/
lemma rewriteAux_none : ∀ (fuel : Nat) (scopes : List Scope) (svars : List VarMap)
    (sid : Nat) (line : List Token) (i : Nat), fuel ≠ 0 →
    line.get? i = none →
    rewriteAux fuel scopes svars sid line i = line := by
  intro fuel scopes svars sid line i hf h
  cases fuel with
  | zero => exact absurd rfl hf
  | succ f => rw [rewriteAux, h]

/-- `rewriteAux` passes over a non-identifier token. -/
lemma rewriteAux_not_ident : ∀ (fuel : Nat) (scopes : List Scope)
    (svars : List VarMap) (sid : Nat) (line : List Token) (i : Nat) (t : Token),
    fuel ≠ 0 → line.get? i = some t →
    (t.type == TokType.Identifier) = false →
    rewriteAux fuel scopes svars sid line i =
      rewriteAux (fuel - 1) scopes svars sid line (i + 1) := by
  intro fuel scopes svars sid line i t hf h ht
  cases fuel with
  | zero => exact absurd rfl hf
  | succ f =>
    rw [rewriteAux, h]
    simp only [ht, Bool.false_eq_true, if_false]
    rfl

/-- `rewriteAux` passes over an identifier with no resolvable record
(pointer level 999 and array rank 0): nothing on the line changes for
that identifier. -/
lemma rewriteAux_skip : ∀ (fuel : Nat) (scopes : List Scope)
    (svars : List VarMap) (sid : Nat) (line : List Token) (i : Nat) (t : Token),
    fuel ≠ 0 → line.get? i = some t → t.type = TokType.Identifier →
    resolve_ptr_level scopes svars sid t.text = (999, 0) →
    rewriteAux fuel scopes svars sid line i =
      rewriteAux (fuel - 1) scopes svars sid line (i + 1) := by
  intro fuel scopes svars sid line i t hf h ht hres
  cases fuel with
  | zero => exact absurd rfl hf
  | succ f =>
    rw [rewriteAux, h]
    simp only [ht, beq_self_eq_true, if_pos rfl, hres]
    simp

/-- `rewriteAux` on an identifier with a usable record hands the line
to the postfix walk and the dot walk and resumes at the returned
cursor. -/
lemma rewriteAux_ident : ∀ (fuel : Nat) (scopes : List Scope)
    (svars : List VarMap) (sid : Nat) (line : List Token) (i : Nat) (t : Token)
    (P A : Nat), fuel ≠ 0 → line.get? i = some t →
    t.type = TokType.Identifier →
    resolve_ptr_level scopes svars sid t.text = (P, A) →
    (decide (P = 999) && decide (A = 0)) = false →
    rewriteAux fuel scopes svars sid line i =
      rewriteAux (fuel - 1) scopes svars sid
        (dotWalk (line.length + 1) line i
          (postfixWalk (line.length + 1) line (i+1) (if P = 999 then 0 else P) A).1
          (postfixWalk (line.length + 1) line (i+1) (if P = 999 then 0 else P) A).2.1).1
        (if (dotWalk (line.length + 1) line i
              (postfixWalk (line.length + 1) line (i+1) (if P = 999 then 0 else P) A).1
              (postfixWalk (line.length + 1) line (i+1)
                (if P = 999 then 0 else P) A).2.1).2 > 0
         then (dotWalk (line.length + 1) line i
                (postfixWalk (line.length + 1) line (i+1)
                  (if P = 999 then 0 else P) A).1
                (postfixWalk (line.length + 1) line (i+1)
                  (if P = 999 then 0 else P) A).2.1).2
         else i + 1) := by
  intro fuel scopes svars sid line i t P A hf h ht hres hPA
  cases fuel with
  | zero => exact absurd rfl hf
  | succ f =>
    rw [rewriteAux, h]
    simp only [ht, beq_self_eq_true, if_pos rfl, hres]
    simp only [hPA, Bool.false_eq_true, if_false]
    rw [if_pos trivial]
    rfl

/-- `findMatch` at the opening bracket descends. -/
lemma findMatch_open : ∀ (fuel : Nat) (line : List Token) (k depth : Nat)
    (opn cls : String), fuel ≠ 0 → k < line.length →
    tkIsTxt line k TokType.Punct opn = true →
    findMatch fuel line k depth opn cls =
      findMatch (fuel - 1) line (k+1) (depth+1) opn cls := by
  intro fuel line k depth opn cls hf hk h
  cases fuel with
  | zero => exact absurd rfl hf
  | succ f => rw [findMatch, if_pos hk, h]; simp

/-- `findMatch` at the matching closer returns it. -/
lemma findMatch_close_hit : ∀ (fuel : Nat) (line : List Token) (k : Nat)
    (opn cls : String), fuel ≠ 0 → k < line.length →
    opn ≠ cls →
    tkIsTxt line k TokType.Punct cls = true →
    findMatch fuel line k 1 opn cls = some k := by
  intro fuel line k opn cls hf hk hne h
  cases fuel with
  | zero => exact absurd rfl hf
  | succ f =>
    rw [findMatch, if_pos hk]
    have hopn : tkIsTxt line k TokType.Punct opn = false := by
      rcases hg : line.get? k with _ | tok
      · rw [tkIsTxt, hg]
      · have h2 := h
        rw [tkIsTxt, hg] at h2
        simp only [Bool.and_eq_true, beq_iff_eq] at h2
        rw [tkIsTxt, hg]
        by_cases htext : tok.text = opn
        · exact absurd (htext.symm.trans h2.2) hne
        · simp [htext]
    rw [hopn]
    simp only [Bool.false_eq_true, if_false]
    rw [h]
    simp

/-- `findMatch` passes over an unrelated token. -/
lemma findMatch_other : ∀ (fuel : Nat) (line : List Token) (k depth : Nat)
    (opn cls : String), fuel ≠ 0 → k < line.length →
    tkIsTxt line k TokType.Punct opn = false →
    tkIsTxt line k TokType.Punct cls = false →
    findMatch fuel line k depth opn cls =
      findMatch (fuel - 1) line (k+1) depth opn cls := by
  intro fuel line k depth opn cls hf hk h1 h2
  cases fuel with
  | zero => exact absurd rfl hf
  | succ f =>
    rw [findMatch, if_pos hk, h1, h2]
    simp

/-- `postfixWalk` stops at a token that opens neither brackets nor a
call. -/
lemma postfixWalk_stop : ∀ (fuel : Nat) (line : List Token) (j p a : Nat),
    fuel ≠ 0 →
    tkIsTxt line j TokType.Punct "[" = false →
    tkIsTxt line j TokType.Punct "(" = false →
    postfixWalk fuel line j p a = (j, p, a) := by
  intro fuel line j p a hf h1 h2
  cases fuel with
  | zero => exact absurd rfl hf
  | succ f => rw [postfixWalk, h1, h2]; simp

/-- `postfixWalk` at a subscript with array rank 0 and positive
pointer depth dereferences once. -/
lemma postfixWalk_subscript_deref : ∀ (fuel : Nat) (line : List Token)
    (j p k : Nat), fuel ≠ 0 →
    tkIsTxt line j TokType.Punct "[" = true →
    findMatch (line.length + 1) line j 0 "[" "]" = some k →
    0 < p →
    postfixWalk fuel line j p 0 =
      postfixWalk (fuel - 1) line (k+1) (p - 1) 0 := by
  intro fuel line j p k hf h1 hm hp
  cases fuel with
  | zero => exact absurd rfl hf
  | succ f =>
    rw [postfixWalk, h1]
    simp only [if_pos rfl, hm]
    rw [if_neg (by decide : ¬ (0:Nat) > 0), if_pos hp]
    rw [if_pos trivial]
    rfl

/-- `dotWalk` stops when no `. IDENT` pair follows. -/
lemma dotWalk_stop : ∀ (fuel : Nat) (line : List Token) (i j p : Nat),
    fuel ≠ 0 →
    (decide (j + 1 < line.length) && tkIsTxt line j TokType.Punct "." &&
      tkIs line (j+1) TokType.Identifier) = false →
    dotWalk fuel line i j p = (line, j) := by
  intro fuel line i j p hf h
  cases fuel with
  | zero => exact absurd rfl hf
  | succ f => rw [dotWalk, h]; simp

/-- `dotWalk` at depth exactly 1 turns the `.` into `->` and walks
past the member. -/
lemma dotWalk_arrow : ∀ (fuel : Nat) (line : List Token) (i j : Nat),
    fuel ≠ 0 →
    (decide (j + 1 < line.length) && tkIsTxt line j TokType.Punct "." &&
      tkIs line (j+1) TokType.Identifier) = true →
    dotWalk fuel line i j 1 =
      dotWalk (fuel - 1)
        (modifyAt line j fun t => { t with type := TokType.Operator, text := "->" })
        i (j+2) 1 := by
  intro fuel line i j hf h
  cases fuel with
  | zero => exact absurd rfl hf
  | succ f =>
    rw [dotWalk, h]
    simp

/-- `dotWalk` at depth above 1 wraps the base in `( * … )`, turns the
`.` into `->`, decrements the depth and continues past the member. -/
lemma dotWalk_wrap : ∀ (fuel : Nat) (line : List Token) (i j p : Nat),
    fuel ≠ 0 → 1 < p →
    (decide (j + 1 < line.length) && tkIsTxt line j TokType.Punct "." &&
      tkIs line (j+1) TokType.Identifier) = true →
    dotWalk fuel line i j p =
      dotWalk (fuel - 1)
        (modifyAt
          (insertAt
            (insertAt
              (insertAt line i
                { (line.get? i).getD defTok with type := TokType.Punct, text := "(" })
              (i+1)
              { (line.get? i).getD defTok with type := TokType.Operator, text := "*" })
            (j+2)
            { (line.get? j).getD defTok with type := TokType.Punct, text := ")" })
          (j+3) fun t => { t with type := TokType.Operator, text := "->" })
        i (j+5) (p - 1) := by
  intro fuel line i j p hf hp h
  cases fuel with
  | zero => exact absurd rfl hf
  | succ f =>
    rw [dotWalk, h]
    simp only [if_pos rfl, if_neg (by omega : ¬ p = 1), if_pos hp]
    rw [if_pos trivial]
    rfl

/-! ## C9: scope-insensitive safety -/

/-- The `resolve_ptr_level` walk reports (999, 0) when the name has no
record anywhere on the scope chain it visits. -/
lemma resolve_unknown : ∀ (fuel : Nat) (scopes : List Scope)
    (svars : List VarMap) (cur : Int) (name : String),
    (∀ s ∈ scopeChain fuel scopes cur,
      lookupVar ((svars.get? s).getD []) name = none) →
    resolve_ptr_level_aux fuel scopes svars cur name = (999, 0) := by
  intro fuel
  induction fuel with
  | zero => intro scopes svars cur name _; rfl
  | succ fuel ih =>
    intro scopes svars cur name h
    rw [resolve_ptr_level_aux]
    by_cases hc : cur = -1
    · rw [if_pos hc]
    · rw [if_neg hc]
      have hmem : cur.toNat ∈ scopeChain (fuel + 1) scopes cur := by
        rw [scopeChain, if_neg hc]
        simp
      rw [h cur.toNat hmem]
      refine ih scopes svars _ name ?_
      intro s hs
      refine h s ?_
      rw [scopeChain, if_neg hc]
      exact List.mem_cons_of_mem _ hs

/-- C9: a dot access on an identifier that has no variable record in
the line's scope or any ancestor scope is never rewritten.  (1) The
rewriter's step at such an identifier moves the cursor on without any
edit; (2) a line all of whose identifiers are unresolvable is returned
unchanged by the member rewriter. -/
theorem C9_unknown_identifier_untouched :
    (∀ (fuel : Nat) (scopes : List Scope) (svars : List VarMap) (sid : Nat)
       (line : List Token) (i : Nat) (t : Token),
      line.get? i = some t → t.type = TokType.Identifier →
      (∀ s ∈ scopeChain (scopes.length + 1) scopes (Int.ofNat sid),
        lookupVar ((svars.get? s).getD []) t.text = none) →
      rewriteAux (fuel + 1) scopes svars sid line i =
        rewriteAux fuel scopes svars sid line (i + 1)) ∧
    (∀ (scopes : List Scope) (svars : List VarMap) (sid : Nat)
       (line : List Token),
      (∀ t ∈ line, t.type = TokType.Identifier →
        ∀ s ∈ scopeChain (scopes.length + 1) scopes (Int.ofNat sid),
          lookupVar ((svars.get? s).getD []) t.text = none) →
      rewrite_member_chains scopes svars sid line = line) := by
  have hstep : ∀ (fuel : Nat) (scopes : List Scope) (svars : List VarMap)
      (sid : Nat) (line : List Token) (i : Nat) (t : Token),
      line.get? i = some t → t.type = TokType.Identifier →
      (∀ s ∈ scopeChain (scopes.length + 1) scopes (Int.ofNat sid),
        lookupVar ((svars.get? s).getD []) t.text = none) →
      rewriteAux (fuel + 1) scopes svars sid line i =
        rewriteAux fuel scopes svars sid line (i + 1) := by
    intro fuel scopes svars sid line i t h ht hnone
    have hres : resolve_ptr_level scopes svars sid t.text = (999, 0) :=
      resolve_unknown _ _ _ _ _ hnone
    exact rewriteAux_skip (fuel + 1) scopes svars sid line i t (by omega) h ht hres
  refine ⟨hstep, ?_⟩
  have hall : ∀ (fuel : Nat) (scopes : List Scope) (svars : List VarMap)
      (sid : Nat) (line : List Token) (i : Nat),
      (∀ t ∈ line, t.type = TokType.Identifier →
        ∀ s ∈ scopeChain (scopes.length + 1) scopes (Int.ofNat sid),
          lookupVar ((svars.get? s).getD []) t.text = none) →
      rewriteAux fuel scopes svars sid line i = line := by
    intro fuel
    induction fuel with
    | zero => intro scopes svars sid line i _; rfl
    | succ fuel ih =>
      intro scopes svars sid line i h
      rcases hg : line.get? i with _ | t
      · exact rewriteAux_none _ _ _ _ _ _ (by omega) hg
      · by_cases ht : t.type = TokType.Identifier
        · have hres : resolve_ptr_level scopes svars sid t.text = (999, 0) :=
            resolve_unknown _ _ _ _ _ (h t (List.get?_mem hg) ht)
          rw [rewriteAux_skip (fuel + 1) scopes svars sid line i t
              (by omega) hg ht hres]
          exact ih scopes svars sid line (i+1) h
        · rw [rewriteAux_not_ident (fuel + 1) scopes svars sid line i t
              (by omega) hg (by simp [ht])]
          exact ih scopes svars sid line (i+1) h
  intro scopes svars sid line h
  exact hall _ scopes svars sid line 0 h

/-- C9 (witness): a line whose identifiers have no records anywhere is
unchanged. -/
theorem C9_unknown_identifier_untouched_witness :
    rewrite_member_chains [⟨0, -1, "Global", ""⟩] [[]] 0
        [⟨TokType.Identifier, "p", 2, 1, 0⟩, ⟨TokType.Punct, ".", 2, 2, 0⟩,
         ⟨TokType.Identifier, "x", 2, 3, 0⟩] =
      [⟨TokType.Identifier, "p", 2, 1, 0⟩, ⟨TokType.Punct, ".", 2, 2, 0⟩,
       ⟨TokType.Identifier, "x", 2, 3, 0⟩] :=
  C9_unknown_identifier_untouched.2 _ _ _ _ (by
    intro t ht hty s hs
    have hs0 : s = 0 := by
      rw [show scopeChain ([(⟨0, -1, "Global", ""⟩ : Scope)].length + 1)
            [⟨0, -1, "Global", ""⟩] (Int.ofNat 0) = [0] from rfl] at hs
      simpa using hs
    subst hs0
    rfl)

/-! ## C10: parameter deposits have array rank 0 -/

/-- A successful lookup returns an entry of the list. -/
lemma lookupVar_mem : ∀ (m : VarMap) (n : String) (v : VarInfo),
    lookupVar m n = some v → (n, v) ∈ m := by
  intro m
  induction m with
  | nil => intro n v h; rw [lookupVar] at h; exact absurd h (by simp)
  | cons kv rest ih =>
    intro n v h
    obtain ⟨k, w⟩ := kv
    rw [lookupVar] at h
    split at h
    · next hk =>
      injection h with h
      subst hk h
      exact List.mem_cons_self _ _
    · exact List.mem_cons_of_mem _ (ih n v h)

/-- Depositing one parameter preserves "every record has rank 0". -/
lemma depositParam_rank0 : ∀ (m : VarMap) (pp : Param),
    (∀ pr ∈ m, (pr : String × VarInfo).2.array_rank = 0) →
    ∀ pr ∈ depositParam m pp, (pr : String × VarInfo).2.array_rank = 0 := by
  intro m
  induction m with
  | nil =>
    intro pp _ pr hpr
    rw [depositParam] at hpr
    simp at hpr
    rw [hpr]
  | cons kv rest ih =>
    intro pp hm pr hpr
    obtain ⟨k, w⟩ := kv
    rw [depositParam] at hpr
    split at hpr
    · rcases List.mem_cons.mp hpr with heq | hmem
      · rw [heq]
        exact hm (k, w) (List.mem_cons_self _ _)
      · exact hm pr (List.mem_cons_of_mem _ hmem)
    · rcases List.mem_cons.mp hpr with heq | hmem
      · rw [heq]
        exact hm (k, w) (List.mem_cons_self _ _)
      · exact ih pp (fun q hq => hm q (List.mem_cons_of_mem _ hq)) pr hmem

/-- Depositing a parameter list preserves "every record has rank 0". -/
lemma depositParams_rank0 : ∀ (ps : List Param) (m : VarMap),
    (∀ pr ∈ m, (pr : String × VarInfo).2.array_rank = 0) →
    ∀ pr ∈ depositParams ps m, (pr : String × VarInfo).2.array_rank = 0 := by
  intro ps
  induction ps with
  | nil => intro m hm pr hpr; exact hm pr hpr
  | cons p rest ih =>
    intro m hm pr hpr
    exact ih (depositParam m p) (depositParam_rank0 m p hm) pr hpr

/-- C10: (1) every variable record created by draining a
function-parameter deposit into the fresh function scope has array
rank 0; (2) `parse_params` on `(int * xs [ 4 ])` yields just
`xs` with one star — the `[...]` suffix is skipped, not counted;
(3) consequently, inside the body a subscript on such a parameter with
pointer level 2 and rank 0 consumes one level of pointer depth, so
`xs[k].f` gets `->`. -/
theorem C10_param_deposit_rank0 :
    (∀ (ps : List Param) (name : String) (vi : VarInfo),
      lookupVar (depositParams ps []) name = some vi → vi.array_rank = 0) ∧
    parse_params
        [⟨TokType.Punct, "(", 1, 1, 0⟩, ⟨TokType.Keyword, "int", 1, 2, 0⟩,
         ⟨TokType.Operator, "*", 1, 6, 0⟩, ⟨TokType.Identifier, "xs", 1, 8, 0⟩,
         ⟨TokType.Punct, "[", 1, 10, 0⟩, ⟨TokType.Number, "4", 1, 11, 0⟩,
         ⟨TokType.Punct, "]", 1, 12, 0⟩, ⟨TokType.Punct, ")", 1, 13, 0⟩]
        0 7 builtin_types = [⟨"xs", 1⟩] ∧
    (∀ (scopes : List Scope) (svars : List VarMap) (sid : Nat)
       (p lb num rb d f : Token),
      p.type = TokType.Identifier → lb.type = TokType.Punct → lb.text = "[" →
      num.type = TokType.Number → rb.type = TokType.Punct → rb.text = "]" →
      d.type = TokType.Punct → d.text = "." → f.type = TokType.Identifier →
      resolve_ptr_level scopes svars sid p.text = (2, 0) →
      rewrite_member_chains scopes svars sid [p, lb, num, rb, d, f] =
        [p, lb, num, rb, { d with type := TokType.Operator, text := "->" }, f]) := by
  refine ⟨?_, rfl, ?_⟩
  · intro ps name vi h
    exact depositParams_rank0 ps [] (by intro pr hpr; simp at hpr) (name, vi)
      (lookupVar_mem _ _ _ h)
  · intro scopes svars sid p lb num rb d f hp hlb hlbt hnum hrb hrbt hd hdt hf hres
    have hT1 : tkIsTxt [p, lb, num, rb, d, f] 1 TokType.Punct "[" = true := by
      simp [tkIsTxt, hlb, hlbt]
    have hT2o : tkIsTxt [p, lb, num, rb, d, f] 2 TokType.Punct "[" = false := by
      simp [tkIsTxt, hnum]
    have hT2c : tkIsTxt [p, lb, num, rb, d, f] 2 TokType.Punct "]" = false := by
      simp [tkIsTxt, hnum]
    have hT3c : tkIsTxt [p, lb, num, rb, d, f] 3 TokType.Punct "]" = true := by
      simp [tkIsTxt, hrb, hrbt]
    have hT4o : tkIsTxt [p, lb, num, rb, d, f] 4 TokType.Punct "[" = false := by
      simp [tkIsTxt, hdt]
    have hT4p : tkIsTxt [p, lb, num, rb, d, f] 4 TokType.Punct "(" = false := by
      simp [tkIsTxt, hdt]
    have hfm : findMatch ([p, lb, num, rb, d, f].length + 1)
        [p, lb, num, rb, d, f] 1 0 "[" "]" = some 3 := by
      rw [findMatch_open _ _ _ _ _ _ (by simp) (by simp) hT1]
      rw [findMatch_other _ _ _ _ _ _ (by simp) (by simp) hT2o hT2c]
      rw [findMatch_close_hit _ _ _ _ _ (by simp) (by simp) (by decide) hT3c]
    have hpw : postfixWalk ([p, lb, num, rb, d, f].length + 1)
        [p, lb, num, rb, d, f] (0+1) (if (2:Nat) = 999 then 0 else 2) 0 =
        (4, 1, 0) := by
      rw [if_neg (by decide : ¬ (2:Nat) = 999)]
      rw [postfixWalk_subscript_deref _ _ _ _ 3 (by simp) hT1 hfm (by norm_num)]
      rw [postfixWalk_stop _ _ _ _ _ (by simp) hT4o hT4p]
    have hcond : (decide (4 + 1 < ([p, lb, num, rb, d, f] : List Token).length) &&
        tkIsTxt [p, lb, num, rb, d, f] 4 TokType.Punct "." &&
        tkIs [p, lb, num, rb, d, f] 5 TokType.Identifier) = true := by
      simp [tkIsTxt, tkIs, hd, hdt, hf]
    have hdw : dotWalk ([p, lb, num, rb, d, f].length + 1)
        [p, lb, num, rb, d, f] 0 4 1 =
        ([p, lb, num, rb, { d with type := TokType.Operator, text := "->" }, f], 6) := by
      rw [dotWalk_arrow _ _ _ _ (by simp) hcond]
      have hline : modifyAt [p, lb, num, rb, d, f] 4
          (fun t => { t with type := TokType.Operator, text := "->" }) =
          [p, lb, num, rb, { d with type := TokType.Operator, text := "->" }, f] := by
        simp [modifyAt]
      rw [hline]
      rw [dotWalk_stop _ _ _ _ _ (by simp) (by simp)]
    rw [rewrite_member_chains]
    rw [rewriteAux_ident (4 * [p, lb, num, rb, d, f].length + 4) scopes svars sid
        [p, lb, num, rb, d, f] 0 p 2 0 (by simp) rfl hp hres (by decide)]
    rw [hpw]
    dsimp only
    rw [hdw]
    dsimp only
    rw [if_pos (by norm_num : (6:Nat) > 0)]
    rw [rewriteAux_none _ _ _ _ _ _ (by simp) (by simp)]

/-- C10 (witness): the subscript consequence at a concrete line and
variable table. -/
theorem C10_param_deposit_rank0_witness :
    rewrite_member_chains [⟨0, -1, "Global", ""⟩] [[("xs", ⟨2, 0⟩)]] 0
        [⟨TokType.Identifier, "xs", 3, 1, 0⟩, ⟨TokType.Punct, "[", 3, 3, 0⟩,
         ⟨TokType.Number, "0", 3, 4, 0⟩, ⟨TokType.Punct, "]", 3, 5, 0⟩,
         ⟨TokType.Punct, ".", 3, 6, 0⟩, ⟨TokType.Identifier, "f", 3, 7, 0⟩] =
      [⟨TokType.Identifier, "xs", 3, 1, 0⟩, ⟨TokType.Punct, "[", 3, 3, 0⟩,
       ⟨TokType.Number, "0", 3, 4, 0⟩, ⟨TokType.Punct, "]", 3, 5, 0⟩,
       ⟨TokType.Operator, "->", 3, 6, 0⟩, ⟨TokType.Identifier, "f", 3, 7, 0⟩] :=
  C10_param_deposit_rank0.2.2 _ _ _ _ _ _ _ _ _
    rfl rfl rfl rfl rfl rfl rfl rfl rfl rfl

/-! ## C3: multi-level pointer rewrite -/

/-- C3 (counterexample): with `x` recorded at pointer level 4 and rank
0, the line `x.f` is rewritten to `(*x)->f` — a single wrapping — not
to the claimed `(*(*(*x)))->f`. -/
theorem C3_counterexample :
    ((rewrite_member_chains [⟨0, -1, "Global", ""⟩] [[("x", ⟨4, 0⟩)]] 0
        [⟨TokType.Identifier, "x", 1, 1, 0⟩, ⟨TokType.Punct, ".", 1, 2, 0⟩,
         ⟨TokType.Identifier, "f", 1, 3, 0⟩]).map Token.text =
      ["(", "*", "x", ")", "->", "f"]) ∧
    (["(", "*", "x", ")", "->", "f"] ≠
      ["(", "*", "(", "*", "(", "*", "x", ")", ")", ")", "->", "f"]) :=
  ⟨rfl, by decide⟩

/-- C3 (amended): for every line whose base identifier resolves to a
variable record with pointer level 4 and array rank 0, the member
rewriter rewrites the single access `x.f` into `(*x)->f`: exactly one
dereference wrapping is applied and the `.` becomes `->` in the same
step (the wrap branch rewrites the dot it wraps and decrements the
depth once, then looks for *further* `. IDENT` pairs, of which there
are none in a single access). -/
theorem C3_pointer_depth : ∀ (scopes : List Scope) (svars : List VarMap)
    (sid : Nat) (x d f : Token),
    x.type = TokType.Identifier → d.type = TokType.Punct → d.text = "." →
    f.type = TokType.Identifier →
    resolve_ptr_level scopes svars sid x.text = (4, 0) →
    rewrite_member_chains scopes svars sid [x, d, f] =
      [{ x with type := TokType.Punct, text := "(" },
       { x with type := TokType.Operator, text := "*" },
       x,
       { d with type := TokType.Punct, text := ")" },
       { d with type := TokType.Operator, text := "->" },
       f] := by
  intro scopes svars sid x d f hx hd hdt hf hres
  have ht1o : tkIsTxt [x, d, f] 1 TokType.Punct "[" = false := by
    simp [tkIsTxt, hdt]
  have ht1p : tkIsTxt [x, d, f] 1 TokType.Punct "(" = false := by
    simp [tkIsTxt, hdt]
  have hpw : postfixWalk ([x, d, f].length + 1) [x, d, f] (0+1)
      (if (4:Nat) = 999 then 0 else 4) 0 = (1, 4, 0) := by
    rw [if_neg (by decide : ¬ (4:Nat) = 999)]
    exact postfixWalk_stop _ _ _ _ _ (by simp) ht1o ht1p
  have hcond : (decide (1 + 1 < ([x, d, f] : List Token).length) &&
      tkIsTxt [x, d, f] 1 TokType.Punct "." &&
      tkIs [x, d, f] 2 TokType.Identifier) = true := by
    simp [tkIsTxt, tkIs, hd, hdt, hf]
  have hdw : dotWalk ([x, d, f].length + 1) [x, d, f] 0 1 4 =
      ([{ x with type := TokType.Punct, text := "(" },
        { x with type := TokType.Operator, text := "*" },
        x,
        { d with type := TokType.Punct, text := ")" },
        { d with type := TokType.Operator, text := "->" },
        f], 6) := by
    rw [dotWalk_wrap _ _ _ _ _ (by simp) (by norm_num) hcond]
    have hline : modifyAt
        (insertAt
          (insertAt
            (insertAt [x, d, f] 0
              { ([x, d, f].get? 0).getD defTok with
                  type := TokType.Punct, text := "(" })
            (0+1)
            { ([x, d, f].get? 0).getD defTok with
                type := TokType.Operator, text := "*" })
          (1+2)
          { ([x, d, f].get? 1).getD defTok with
              type := TokType.Punct, text := ")" })
        (1+3) (fun t => { t with type := TokType.Operator, text := "->" }) =
        [{ x with type := TokType.Punct, text := "(" },
         { x with type := TokType.Operator, text := "*" },
         x,
         { d with type := TokType.Punct, text := ")" },
         { d with type := TokType.Operator, text := "->" },
         f] := by
      simp [insertAt, modifyAt]
    rw [hline]
    rw [dotWalk_stop _ _ _ _ _ (by simp) (by simp)]
  rw [rewrite_member_chains]
  rw [rewriteAux_ident (4 * [x, d, f].length + 4) scopes svars sid
      [x, d, f] 0 x 4 0 (by simp) rfl hx hres (by decide)]
  rw [hpw]
  dsimp only
  rw [hdw]
  dsimp only
  rw [if_pos (by norm_num : (6:Nat) > 0)]
  rw [rewriteAux_none _ _ _ _ _ _ (by simp) (by simp)]

/-- C3 (witness for the amended theorem). -/
theorem C3_pointer_depth_witness :
    rewrite_member_chains [⟨0, -1, "Global", ""⟩] [[("y", ⟨4, 0⟩)]] 0
        [⟨TokType.Identifier, "y", 1, 1, 0⟩, ⟨TokType.Punct, ".", 1, 2, 0⟩,
         ⟨TokType.Identifier, "g", 1, 3, 0⟩] =
      [⟨TokType.Punct, "(", 1, 1, 0⟩, ⟨TokType.Operator, "*", 1, 1, 0⟩,
       ⟨TokType.Identifier, "y", 1, 1, 0⟩, ⟨TokType.Punct, ")", 1, 2, 0⟩,
       ⟨TokType.Operator, "->", 1, 2, 0⟩, ⟨TokType.Identifier, "g", 1, 3, 0⟩] :=
  C3_pointer_depth _ _ _ _ _ _ rfl rfl rfl rfl rfl

/-! ## C4: the semicolon-inserter's line test -/

/-- C4 (counterexample): the initializer-list line `x = { 1 }` ends in
a `}` yet receives a terminating `;` from the code, while the claim's
final bullet (last token must be Identifier/Number/StringLit/`)`/`]`)
rules it out. -/
theorem C4_counterexample :
    needs_semicolon
        [⟨TokType.Identifier, "x", 1, 1, 0⟩, ⟨TokType.Operator, "=", 1, 3, 0⟩,
         ⟨TokType.Punct, "\x7b", 1, 5, 0⟩, ⟨TokType.Number, "1", 1, 7, 0⟩,
         ⟨TokType.Punct, "\x7d", 1, 9, 0⟩] "Block" = true ∧
    claimedNeedsSemicolon
        [⟨TokType.Identifier, "x", 1, 1, 0⟩, ⟨TokType.Operator, "=", 1, 3, 0⟩,
         ⟨TokType.Punct, "\x7b", 1, 5, 0⟩, ⟨TokType.Number, "1", 1, 7, 0⟩,
         ⟨TokType.Punct, "\x7d", 1, 9, 0⟩] "Block" = false :=
  ⟨rfl, rfl⟩

/-- C4 (amended): the semicolon inserter appends a `;` iff the claim's
conjunction holds once the final token-category bullet also admits a
line ending in a `}` that has a `=` Operator and a `{` Punct earlier
(the initializer-list case that the code's `}`-branch accepts). -/
theorem C4_line_termination : ∀ (line : List Token) (kind : String),
    needs_semicolon line kind = amendedNeedsSemicolon line kind := by
  intro line kind
  cases line with
  | nil => rfl
  | cons first rest =>
    rw [needs_semicolon, amendedNeedsSemicolon]
    simp only [List.head?_cons]
    by_cases he : (kind == "Enum") = true
    · simp [he]
    · rw [Bool.not_eq_true] at he
      by_cases hpre : (first.type == TokType.Preprocessor) = true
      · simp [he, hpre]
      · rw [Bool.not_eq_true] at hpre
        by_cases h1 : ((first :: rest).getLast?.getD defTok).text = "\x7d"
        · cases httype : ((first :: rest).getLast?.getD defTok).type <;>
            simp [he, hpre, h1, httype, Bool.and_self]
        · by_cases h2 : ((first :: rest).getLast?.getD defTok).text = "\x7b"
          · cases httype : ((first :: rest).getLast?.getD defTok).type <;>
              simp [he, hpre, h1, h2, httype]
          · by_cases h3 : ((first :: rest).getLast?.getD defTok).text = ";"
            · cases httype : ((first :: rest).getLast?.getD defTok).type <;>
                simp [he, hpre, h1, h2, h3, httype]
            · by_cases h4 : ((first :: rest).getLast?.getD defTok).text = ")"
              · cases hctrl : lineHasCtrl (first :: rest) <;>
                  cases httype : ((first :: rest).getLast?.getD defTok).type <;>
                    simp [he, hpre, h1, h2, h3, h4, hctrl, httype]
              · by_cases h5 : ((first :: rest).getLast?.getD defTok).text = "]"
                · cases hctrl : lineHasCtrl (first :: rest) <;>
                    cases httype : ((first :: rest).getLast?.getD defTok).type <;>
                      simp [he, hpre, h1, h2, h3, h4, h5, hctrl, httype]
                · cases httype : ((first :: rest).getLast?.getD defTok).type <;>
                    simp [he, hpre, h1, h2, h3, h4, h5, httype]

/-! ## C2: index lemmas for the shared scanning helpers -/

theorem findNl_ge (s : List Char) : ∀ (f i : Nat), i ≤ findNl f s i := by
  intro f
  induction f with
  | zero => intro i; exact Nat.le_refl i
  | succ f ih =>
    intro i
    rcases hg : s.get? i with _ | c
    · simp only [findNl, hg]
      exact Nat.le_refl i
    · simp only [findNl, hg]
      by_cases hc : c = '\n'
      · rw [if_pos hc]
      · rw [if_neg hc]
        exact Nat.le_trans (Nat.le_succ i) (ih (i+1))

theorem findNl_gt (s : List Char) (f i : Nat) (c : Char) (hf : f ≠ 0)
    (hg : s.get? i = some c) (hc : c ≠ '\n') : i + 1 ≤ findNl f s i := by
  cases f with
  | zero => exact absurd rfl hf
  | succ f =>
    simp only [findNl, hg]; rw [if_neg hc]
    exact findNl_ge s f (i+1)

theorem skipBlockComment_fst_ge (s : List Char) :
    ∀ (f i line col : Nat), i ≤ (skipBlockComment f s i line col).1 := by
  intro f
  induction f with
  | zero => intro i line col; exact Nat.le_refl i
  | succ f ih =>
    intro i line col
    simp only [skipBlockComment]
    by_cases h1 : i + 1 < s.length
    · rw [if_pos h1]
      by_cases h2 : s.get? i = some '\n'
      · rw [if_pos h2]
        exact Nat.le_trans (Nat.le_succ i) (ih (i+1) (line+1) 1)
      · rw [if_neg h2]
        by_cases h3 : (s.get? i = some '*' && s.get? (i+1) = some '/') = true
        · rw [if_pos h3]
          exact Nat.le_trans (Nat.le_succ i) (Nat.le_succ (i+1))
        · rw [if_neg h3]
          exact Nat.le_trans (Nat.le_succ i) (ih (i+1) line (col+1))
    · rw [if_neg h1]

theorem skipBlockComment_fst_congr (s : List Char) :
    ∀ (f i l1 c1 l2 c2 : Nat),
      (skipBlockComment f s i l1 c1).1 = (skipBlockComment f s i l2 c2).1 := by
  intro f
  induction f with
  | zero => intro i l1 c1 l2 c2; rfl
  | succ f ih =>
    intro i l1 c1 l2 c2
    simp only [skipBlockComment]
    by_cases h1 : i + 1 < s.length
    · rw [if_pos h1, if_pos h1]
      by_cases h2 : s.get? i = some '\n'
      · rw [if_pos h2, if_pos h2]
        exact ih (i+1) (l1+1) 1 (l2+1) 1
      · rw [if_neg h2, if_neg h2]
        by_cases h3 : (s.get? i = some '*' && s.get? (i+1) = some '/') = true
        · rw [if_pos h3, if_pos h3]
        · rw [if_neg h3, if_neg h3]
          exact ih (i+1) l1 (c1+1) l2 (c2+1)
    · rw [if_neg h1, if_neg h1]

theorem skipStringLit_fst_ge (s : List Char) :
    ∀ (f i line col : Nat), i ≤ (skipStringLit f s i line col).1 := by
  intro f
  induction f with
  | zero => intro i line col; exact Nat.le_refl i
  | succ f ih =>
    intro i line col
    rcases hg : s.get? i with _ | d
    · simp only [skipStringLit, hg]
      exact Nat.le_refl i
    · simp only [skipStringLit, hg]
      by_cases h1 : d = '\\'
      · rw [if_pos h1]
        by_cases h2 : i + 1 < s.length
        · rw [if_pos h2]
          exact Nat.le_trans (by omega) (ih (i+2) line (col+2))
        · rw [if_neg h2]
          exact Nat.le_trans (Nat.le_succ i) (ih (i+1) line (col+1))
      · rw [if_neg h1]
        by_cases h3 : d = '"'
        · rw [if_pos h3]
          exact Nat.le_succ i
        · rw [if_neg h3]
          by_cases h4 : d = '\n'
          · rw [if_pos h4]
            exact Nat.le_trans (Nat.le_succ i) (ih (i+1) (line+1) 1)
          · rw [if_neg h4]
            exact Nat.le_trans (Nat.le_succ i) (ih (i+1) line (col+1))

theorem skipStringLit_fst_congr (s : List Char) :
    ∀ (f i l1 c1 l2 c2 : Nat),
      (skipStringLit f s i l1 c1).1 = (skipStringLit f s i l2 c2).1 := by
  intro f
  induction f with
  | zero => intro i l1 c1 l2 c2; rfl
  | succ f ih =>
    intro i l1 c1 l2 c2
    rcases hg : s.get? i with _ | d
    · simp only [skipStringLit, hg]
    · simp only [skipStringLit, hg]
      by_cases h1 : d = '\\'
      · rw [if_pos h1, if_pos h1]
        by_cases h2 : i + 1 < s.length
        · rw [if_pos h2, if_pos h2]
          exact ih (i+2) l1 (c1+2) l2 (c2+2)
        · rw [if_neg h2, if_neg h2]
          exact ih (i+1) l1 (c1+1) l2 (c2+1)
      · rw [if_neg h1, if_neg h1]
        by_cases h3 : d = '"'
        · rw [if_pos h3, if_pos h3]
        · rw [if_neg h3, if_neg h3]
          by_cases h4 : d = '\n'
          · rw [if_pos h4, if_pos h4]
            exact ih (i+1) (l1+1) 1 (l2+1) 1
          · rw [if_neg h4, if_neg h4]
            exact ih (i+1) l1 (c1+1) l2 (c2+1)

theorem scanNumberEnd_ge (s : List Char) :
    ∀ (f i : Nat) (dot : Bool), i ≤ scanNumberEnd f s i dot := by
  intro f
  induction f with
  | zero => intro i dot; exact Nat.le_refl i
  | succ f ih =>
    intro i dot
    rcases hg : s.get? i with _ | d
    · simp only [scanNumberEnd, hg]
      exact Nat.le_refl i
    · simp only [scanNumberEnd, hg]
      by_cases h1 : isDigitChar d = true
      · rw [if_pos h1]
        exact Nat.le_trans (Nat.le_succ i) (ih (i+1) dot)
      · rw [if_neg h1]
        by_cases h2 : (d = '.' && !dot) = true
        · rw [if_pos h2]
          exact Nat.le_trans (Nat.le_succ i) (ih (i+1) true)
        · rw [if_neg h2]

theorem scanNumberEnd_step_digit (s : List Char) (f i : Nat) (dot : Bool) (c : Char)
    (hf : f ≠ 0) (hg : s.get? i = some c) (hd : isDigitChar c = true) :
    scanNumberEnd f s i dot = scanNumberEnd (f-1) s (i+1) dot := by
  cases f with
  | zero => exact absurd rfl hf
  | succ f =>
    simp only [scanNumberEnd, hg]
    rw [if_pos hd]
    rfl

theorem scanNumberEnd_chars (s : List Char) :
    ∀ (f i : Nat) (dot : Bool) (t : Nat), i ≤ t → t < scanNumberEnd f s i dot →
      ∃ c, s.get? t = some c ∧ (isDigitChar c = true ∨ c = '.') := by
  intro f
  induction f with
  | zero =>
    intro i dot t hit hlt
    simp only [scanNumberEnd] at hlt
    omega
  | succ f ih =>
    intro i dot t hit hlt
    rcases hg : s.get? i with _ | d
    · simp only [scanNumberEnd, hg] at hlt
      omega
    · simp only [scanNumberEnd, hg] at hlt
      by_cases h1 : isDigitChar d = true
      · rw [if_pos h1] at hlt
        rcases Nat.eq_or_lt_of_le hit with heq | hgt
        · exact ⟨d, heq ▸ hg, Or.inl h1⟩
        · exact ih (i+1) dot t hgt hlt
      · rw [if_neg h1] at hlt
        by_cases h2 : (d = '.' && !dot) = true
        · rw [if_pos h2] at hlt
          rcases Nat.eq_or_lt_of_le hit with heq | hgt
          · refine ⟨d, heq ▸ hg, Or.inr ?_⟩
            have := (Bool.and_eq_true _ _).mp h2
            exact of_decide_eq_true this.1
          · exact ih (i+1) true t hgt hlt
        · rw [if_neg h2] at hlt
          omega

theorem scanIdentEnd_ge (s : List Char) :
    ∀ (f i : Nat), i ≤ scanIdentEnd f s i := by
  intro f
  induction f with
  | zero => intro i; exact Nat.le_refl i
  | succ f ih =>
    intro i
    rcases hg : s.get? i with _ | d
    · simp only [scanIdentEnd, hg]
      exact Nat.le_refl i
    · simp only [scanIdentEnd, hg]
      by_cases h1 : isIdentChar d = true
      · rw [if_pos h1]
        exact Nat.le_trans (Nat.le_succ i) (ih (i+1))
      · rw [if_neg h1]

theorem scanIdentEnd_step (s : List Char) (f i : Nat) (c : Char)
    (hf : f ≠ 0) (hg : s.get? i = some c) (hd : isIdentChar c = true) :
    scanIdentEnd f s i = scanIdentEnd (f-1) s (i+1) := by
  cases f with
  | zero => exact absurd rfl hf
  | succ f =>
    simp only [scanIdentEnd, hg]
    rw [if_pos hd]
    rfl

theorem scanIdentEnd_chars (s : List Char) :
    ∀ (f i t : Nat), i ≤ t → t < scanIdentEnd f s i →
      ∃ c, s.get? t = some c ∧ isIdentChar c = true := by
  intro f
  induction f with
  | zero =>
    intro i t hit hlt
    simp only [scanIdentEnd] at hlt
    omega
  | succ f ih =>
    intro i t hit hlt
    rcases hg : s.get? i with _ | d
    · simp only [scanIdentEnd, hg] at hlt
      omega
    · simp only [scanIdentEnd, hg] at hlt
      by_cases h1 : isIdentChar d = true
      · rw [if_pos h1] at hlt
        rcases Nat.eq_or_lt_of_le hit with heq | hgt
        · exact ⟨d, heq ▸ hg, h1⟩
        · exact ih (i+1) t hgt hlt
      · rw [if_neg h1] at hlt
        omega

/-! ## C2: stepping lemmas for the arrow scan -/

theorem arrowScanAux_none (s : List Char) (f i : Nat) (hf : f ≠ 0)
    (hg : s.get? i = none) : arrowScanAux f s i = false := by
  cases f with
  | zero => exact absurd rfl hf
  | succ f => simp only [arrowScanAux, hg]

theorem arrowScanAux_hash (s : List Char) (f i : Nat) (hf : f ≠ 0)
    (hg : s.get? i = some '#') :
    arrowScanAux f s i = arrowScanAux (f-1) s (findNl (s.length + 1) s i) := by
  cases f with
  | zero => exact absurd rfl hf
  | succ f =>
    simp only [arrowScanAux, hg]
    rw [if_pos trivial]
    rfl

theorem arrowScanAux_linecomment (s : List Char) (f i : Nat) (hf : f ≠ 0)
    (hg : s.get? i = some '/') (hg2 : s.get? (i+1) = some '/') :
    arrowScanAux f s i = arrowScanAux (f-1) s (findNl (s.length + 1) s (i+2)) := by
  cases f with
  | zero => exact absurd rfl hf
  | succ f =>
    simp only [arrowScanAux, hg]
    rw [if_neg (by decide : ¬(('/' : Char) = '#')), if_pos ⟨trivial, hg2⟩]
    rfl

theorem arrowScanAux_blockcomment (s : List Char) (f i : Nat) (hf : f ≠ 0)
    (hg : s.get? i = some '/') (hg2 : s.get? (i+1) = some '*') :
    arrowScanAux f s i =
      arrowScanAux (f-1) s (skipBlockComment (s.length + 1) s (i+2) 1 1).1 := by
  cases f with
  | zero => exact absurd rfl hf
  | succ f =>
    simp only [arrowScanAux, hg]
    rw [if_neg (by decide : ¬(('/' : Char) = '#')),
        if_neg (fun h => absurd (Option.some.inj (hg2 ▸ h.2)) (by decide)),
        if_pos ⟨trivial, hg2⟩]
    rfl

theorem arrowScanAux_quote (s : List Char) (f i : Nat) (hf : f ≠ 0)
    (hg : s.get? i = some '"') :
    arrowScanAux f s i =
      arrowScanAux (f-1) s (skipStringLit (s.length + 1) s (i+1) 1 1).1 := by
  cases f with
  | zero => exact absurd rfl hf
  | succ f =>
    simp only [arrowScanAux, hg]
    rw [if_neg (by decide : ¬(('"' : Char) = '#')),
        if_neg (fun h => absurd h.1 (by decide)),
        if_neg (fun h => absurd h.1 (by decide)),
        if_pos trivial]
    rfl

theorem arrowScanAux_arrow (s : List Char) (f i : Nat) (hf : f ≠ 0)
    (hg : s.get? i = some '-') (hg2 : s.get? (i+1) = some '>') :
    arrowScanAux f s i = true := by
  cases f with
  | zero => exact absurd rfl hf
  | succ f =>
    simp only [arrowScanAux, hg]
    rw [if_neg (by decide : ¬(('-' : Char) = '#')),
        if_neg (fun h => absurd h.1 (by decide)),
        if_neg (fun h => absurd h.1 (by decide)),
        if_neg (by decide : ¬(('-' : Char) = '"')),
        if_pos ⟨trivial, hg2⟩]

theorem arrowScanAux_minusminus (s : List Char) (f i : Nat) (hf : f ≠ 0)
    (hg : s.get? i = some '-') (hg2 : s.get? (i+1) = some '-') :
    arrowScanAux f s i = arrowScanAux (f-1) s (i+2) := by
  cases f with
  | zero => exact absurd rfl hf
  | succ f =>
    simp only [arrowScanAux, hg]
    rw [if_neg (by decide : ¬(('-' : Char) = '#')),
        if_neg (fun h => absurd h.1 (by decide)),
        if_neg (fun h => absurd h.1 (by decide)),
        if_neg (by decide : ¬(('-' : Char) = '"')),
        if_neg (fun h => absurd (Option.some.inj (hg2 ▸ h.2)) (by decide)),
        if_pos ⟨trivial, hg2⟩]
    rfl

theorem arrowScanAux_else (s : List Char) (f i : Nat) (c : Char) (hf : f ≠ 0)
    (hg : s.get? i = some c)
    (h1 : c ≠ '#') (h2 : ¬(c = '/' ∧ s.get? (i+1) = some '/'))
    (h3 : ¬(c = '/' ∧ s.get? (i+1) = some '*')) (h4 : c ≠ '"')
    (h5 : ¬(c = '-' ∧ s.get? (i+1) = some '>'))
    (h6 : ¬(c = '-' ∧ s.get? (i+1) = some '-')) :
    arrowScanAux f s i = arrowScanAux (f-1) s (i+1) := by
  cases f with
  | zero => exact absurd rfl hf
  | succ f =>
    simp only [arrowScanAux, hg]
    rw [if_neg h1, if_neg h2, if_neg h3, if_neg h4, if_neg h5, if_neg h6]
    rfl

theorem arrowScanAux_plain (s : List Char) (f i : Nat) (c : Char) (hf : f ≠ 0)
    (hg : s.get? i = some c) (p : PlainChar c) :
    arrowScanAux f s i = arrowScanAux (f-1) s (i+1) :=
  arrowScanAux_else s f i c hf hg p.1 (fun h => p.2.1 h.1) (fun h => p.2.1 h.1)
    p.2.2.1 (fun h => p.2.2.2 h.1) (fun h => p.2.2.2 h.1)

/-! ## C2: character-class facts -/

theorem digitDot_plain (c : Char) (h : isDigitChar c = true ∨ c = '.') :
    PlainChar c := by
  refine ⟨?_, ?_, ?_, ?_⟩ <;>
    (rintro rfl; rcases h with h | h <;> exact absurd h (by decide))

theorem identChar_plain (c : Char) (h : isIdentChar c = true) : PlainChar c := by
  refine ⟨?_, ?_, ?_, ?_⟩ <;> (rintro rfl; exact absurd h (by decide))

theorem spaceChar_plain (c : Char) (h : isSpaceChar c = true) : PlainChar c := by
  refine ⟨?_, ?_, ?_, ?_⟩ <;> (rintro rfl; exact absurd h (by decide))

theorem punctChar_plain (c : Char) (h : is_punct_char c = true) : PlainChar c := by
  refine ⟨?_, ?_, ?_, ?_⟩ <;> (rintro rfl; exact absurd h (by decide))

theorem identStart_identChar (c : Char) (h : isIdentStart c = true) :
    isIdentChar c = true := by
  simp only [isIdentStart, Bool.or_eq_true, decide_eq_true_eq] at h
  simp only [isIdentChar, Bool.or_eq_true, decide_eq_true_eq]
  tauto

theorem twoCharOps_second_plain (c c2 : Char)
    (hB : twoCharOps.contains (c, c2) = true) (hCC : ¬(c = '-' ∧ c2 = '-')) :
    c2 ≠ '#' ∧ c2 ≠ '"' ∧ c2 ≠ '/' ∧ c2 ≠ '-' := by
  have hmem : (c, c2) ∈ twoCharOps := List.mem_of_elem_eq_true hB
  have hforall : ∀ p ∈ twoCharOps,
      (p.1 = '-' ∧ p.2 = '-') ∨ (p.2 ≠ '#' ∧ p.2 ≠ '"' ∧ p.2 ≠ '/' ∧ p.2 ≠ '-') := by
    decide
  rcases hforall (c, c2) hmem with h | h
  · exact absurd h hCC
  · exact h

/-! ## C2: a run of plain characters is a plain index walk -/

theorem arrowScanAux_plain_run (s : List Char) :
    ∀ (m f i : Nat), m ≤ f →
      (∀ t, t < m → ∃ c, s.get? (i + t) = some c ∧ PlainChar c) →
      arrowScanAux f s i = arrowScanAux (f - m) s (i + m) := by
  intro m
  induction m with
  | zero =>
    intro f i _ _
    rw [Nat.sub_zero, Nat.add_zero]
  | succ m ih =>
    intro f i hmf hchars
    obtain ⟨c, hg, hp⟩ := hchars 0 (Nat.succ_pos m)
    rw [Nat.add_zero] at hg
    rw [arrowScanAux_plain s f i c (by omega) hg hp]
    have h2 : ∀ t, t < m → ∃ c, s.get? (i + 1 + t) = some c ∧ PlainChar c := by
      intro t ht
      obtain ⟨c', hg', hp'⟩ := hchars (t+1) (by omega)
      refine ⟨c', ?_, hp'⟩
      rw [show i + 1 + t = i + (t + 1) by omega]
      exact hg'
    rw [ih (f-1) (i+1) (by omega) h2]
    have e1 : f - 1 - m = f - (m + 1) := by omega
    have e2 : i + 1 + m = i + (m + 1) := by omega
    rw [e1, e2]

/-! ## C2: the lockstep base case (end of input) -/

theorem lex_arrow_none (s : List Char) (i line col : Nat) (acc : List Token)
    (fL fS : Nat) (hfL : fL ≠ 0) (hfS : fS ≠ 0) (hg : s.get? i = none) :
    isLexErr (lexAux fL s i line col acc) = arrowScanAux fS s i := by
  cases fL with
  | zero => exact absurd rfl hfL
  | succ fL =>
    cases fS with
    | zero => exact absurd rfl hfS
    | succ fS =>
      simp only [lexAux, arrowScanAux, hg]
      rfl

/-! ## C2: the lexer and the arrow scan move in lockstep -/

theorem lex_arrow_lockstep (s : List Char) :
    ∀ (k i line col : Nat) (acc : List Token) (fL fS : Nat),
      s.length - i < fL → s.length - i < fS → s.length - i ≤ k →
      isLexErr (lexAux fL s i line col acc) = arrowScanAux fS s i := by
  intro k
  induction k with
  | zero =>
    intro i line col acc fL fS hfL hfS hk
    exact lex_arrow_none s i line col acc fL fS (by omega) (by omega)
      (List.get?_eq_none.mpr (by omega))
  | succ k ih =>
    intro i line col acc fL fS hfL hfS hk
    rcases hg : s.get? i with _ | c
    · exact lex_arrow_none s i line col acc fL fS (by omega) (by omega) hg
    · have hin : i < s.length := by
        by_contra hn
        rw [List.get?_eq_none.mpr (by omega)] at hg
        exact Option.noConfusion hg
      cases fL with
      | zero => exact absurd hfL (by omega)
      | succ fL =>
        cases fS with
        | zero => exact absurd hfS (by omega)
        | succ fS =>
          simp only [lexAux, hg]
          by_cases h1 : c = '\n'
          · rw [if_pos h1]
            rw [arrowScanAux_plain s (fS+1) i c (by omega) hg
              (by rw [h1]; exact ⟨by decide, by decide, by decide, by decide⟩)]
            exact ih (i+1) (line+1) 1 acc fL fS (by omega) (by omega) (by omega)
          · rw [if_neg h1]
            by_cases h2 : isSpaceChar c = true
            · rw [if_pos h2]
              rw [arrowScanAux_plain s (fS+1) i c (by omega) hg (spaceChar_plain c h2)]
              exact ih (i+1) line (col+1) acc fL fS (by omega) (by omega) (by omega)
            · rw [if_neg h2]
              by_cases h3 : c = '#'
              · rw [if_pos h3]
                rw [arrowScanAux_hash s (fS+1) i (by omega) (h3 ▸ hg)]
                have hge : i + 1 ≤ findNl (s.length + 1) s i :=
                  findNl_gt s (s.length + 1) i c (by omega) hg (by rw [h3]; decide)
                refine ih _ _ _ _ fL fS ?_ ?_ ?_ <;> omega
              · rw [if_neg h3]
                by_cases h4 : c = '/' ∧ s.get? (i+1) = some '/'
                · rw [if_pos h4]
                  rw [arrowScanAux_linecomment s (fS+1) i (by omega) (h4.1 ▸ hg) h4.2]
                  have hge : i + 2 ≤ findNl (s.length + 1) s (i+2) :=
                    findNl_ge s (s.length + 1) (i+2)
                  refine ih _ _ _ _ fL fS ?_ ?_ ?_ <;> omega
                · rw [if_neg h4]
                  by_cases h5 : c = '/' ∧ s.get? (i+1) = some '*'
                  · rw [if_pos h5]
                    rw [arrowScanAux_blockcomment s (fS+1) i (by omega) (h5.1 ▸ hg) h5.2]
                    rw [skipBlockComment_fst_congr s (s.length + 1) (i+2) 1 1 line (col+2)]
                    have hge : i + 2 ≤ (skipBlockComment (s.length + 1) s (i+2) line (col+2)).1 :=
                      skipBlockComment_fst_ge s (s.length + 1) (i+2) line (col+2)
                    refine ih _ _ _ _ fL fS ?_ ?_ ?_ <;> omega
                  · rw [if_neg h5]
                    by_cases h6 : c = '"'
                    · rw [if_pos h6]
                      rw [arrowScanAux_quote s (fS+1) i (by omega) (h6 ▸ hg)]
                      rw [skipStringLit_fst_congr s (s.length + 1) (i+1) 1 1 line (col+1)]
                      have hge : i + 1 ≤ (skipStringLit (s.length + 1) s (i+1) line (col+1)).1 :=
                        skipStringLit_fst_ge s (s.length + 1) (i+1) line (col+1)
                      refine ih _ _ _ _ fL fS ?_ ?_ ?_ <;> omega
                    · rw [if_neg h6]
                      by_cases h7 : isDigitChar c = true
                      · rw [if_pos h7]
                        have hstep : scanNumberEnd (s.length + 1) s i false =
                            scanNumberEnd (s.length + 1 - 1) s (i+1) false :=
                          scanNumberEnd_step_digit s (s.length + 1) i false c (by omega) hg h7
                        have hge : i + 1 ≤ scanNumberEnd (s.length + 1) s i false := by
                          rw [hstep]
                          exact scanNumberEnd_ge s (s.length + 1 - 1) (i+1) false
                        have hchars : ∀ t, t < scanNumberEnd (s.length + 1) s i false - i →
                            ∃ c', s.get? (i + t) = some c' ∧ PlainChar c' := by
                          intro t ht
                          obtain ⟨c', hgc, hprop⟩ :=
                            scanNumberEnd_chars s (s.length + 1) i false (i + t) (by omega) (by omega)
                          exact ⟨c', hgc, digitDot_plain c' hprop⟩
                        have hjn : scanNumberEnd (s.length + 1) s i false ≤ s.length := by
                          obtain ⟨c', hgc, _⟩ :=
                            hchars (scanNumberEnd (s.length + 1) s i false - i - 1) (by omega)
                          have hlt : i + (scanNumberEnd (s.length + 1) s i false - i - 1) < s.length := by
                            by_contra hh
                            rw [List.get?_eq_none.mpr (by omega)] at hgc
                            exact Option.noConfusion hgc
                          omega
                        rw [arrowScanAux_plain_run s (scanNumberEnd (s.length + 1) s i false - i)
                          (fS+1) i (by omega) hchars]
                        rw [show i + (scanNumberEnd (s.length + 1) s i false - i) =
                          scanNumberEnd (s.length + 1) s i false by omega]
                        refine ih _ _ _ _ fL
                          (fS + 1 - (scanNumberEnd (s.length + 1) s i false - i)) ?_ ?_ ?_ <;> omega
                      · rw [if_neg h7]
                        by_cases h8 : isIdentStart c = true
                        · rw [if_pos h8]
                          have hstep : scanIdentEnd (s.length + 1) s i =
                              scanIdentEnd (s.length + 1 - 1) s (i+1) :=
                            scanIdentEnd_step s (s.length + 1) i c (by omega) hg
                              (identStart_identChar c h8)
                          have hge : i + 1 ≤ scanIdentEnd (s.length + 1) s i := by
                            rw [hstep]
                            exact scanIdentEnd_ge s (s.length + 1 - 1) (i+1)
                          have hchars : ∀ t, t < scanIdentEnd (s.length + 1) s i - i →
                              ∃ c', s.get? (i + t) = some c' ∧ PlainChar c' := by
                            intro t ht
                            obtain ⟨c', hgc, hprop⟩ :=
                              scanIdentEnd_chars s (s.length + 1) i (i + t) (by omega) (by omega)
                            exact ⟨c', hgc, identChar_plain c' hprop⟩
                          have hjn : scanIdentEnd (s.length + 1) s i ≤ s.length := by
                            obtain ⟨c', hgc, _⟩ :=
                              hchars (scanIdentEnd (s.length + 1) s i - i - 1) (by omega)
                            have hlt : i + (scanIdentEnd (s.length + 1) s i - i - 1) < s.length := by
                              by_contra hh
                              rw [List.get?_eq_none.mpr (by omega)] at hgc
                              exact Option.noConfusion hgc
                            omega
                          rw [arrowScanAux_plain_run s (scanIdentEnd (s.length + 1) s i - i)
                            (fS+1) i (by omega) hchars]
                          rw [show i + (scanIdentEnd (s.length + 1) s i - i) =
                            scanIdentEnd (s.length + 1) s i by omega]
                          refine ih _ _ _ _ fL
                            (fS + 1 - (scanIdentEnd (s.length + 1) s i - i)) ?_ ?_ ?_ <;> omega
                        · rw [if_neg h8]
                          by_cases h9 : is_op_char c = true
                          · rw [if_pos h9]
                            split
                            · rename_i c2 hg2
                              by_cases hA : c = '-' ∧ c2 = '>'
                              · rw [if_pos hA]
                                rw [arrowScanAux_arrow s (fS+1) i (by omega) (hA.1 ▸ hg)
                                  (by rw [hg2, hA.2])]
                                rfl
                              · rw [if_neg hA]
                                by_cases hB : twoCharOps.contains (c, c2) = true
                                · rw [if_pos hB]
                                  by_cases hCC : c = '-' ∧ c2 = '-'
                                  · rw [arrowScanAux_minusminus s (fS+1) i (by omega)
                                      (hCC.1 ▸ hg) (by rw [hg2, hCC.2])]
                                    refine ih _ _ _ _ fL fS ?_ ?_ ?_ <;> omega
                                  · have hin2 : i + 1 < s.length := by
                                      by_contra hn
                                      rw [List.get?_eq_none.mpr (by omega)] at hg2
                                      exact Option.noConfusion hg2
                                    obtain ⟨p1, p2, p3, p4⟩ :=
                                      twoCharOps_second_plain c c2 hB hCC
                                    rw [arrowScanAux_else s (fS+1) i c (by omega) hg h3 h4 h5 h6
                                      (fun h => hA ⟨h.1, by rw [hg2] at h; exact Option.some.inj h.2⟩)
                                      (fun h => hCC ⟨h.1, by rw [hg2] at h; exact Option.some.inj h.2⟩)]
                                    rw [Nat.add_sub_cancel]
                                    rw [arrowScanAux_else s fS (i+1) c2 (by omega) hg2 p1
                                      (fun h => p3 h.1) (fun h => p3 h.1) p2
                                      (fun h => p4 h.1) (fun h => p4 h.1)]
                                    refine ih _ _ _ _ fL (fS - 1) ?_ ?_ ?_ <;> omega
                                · rw [if_neg hB]
                                  have h5' : ¬(c = '-' ∧ s.get? (i+1) = some '>') :=
                                    fun h => hA ⟨h.1, by rw [hg2] at h; exact Option.some.inj h.2⟩
                                  have h6' : ¬(c = '-' ∧ s.get? (i+1) = some '-') := by
                                    rintro ⟨hc1, hx⟩
                                    rw [hg2] at hx
                                    exact hB (by rw [hc1, Option.some.inj hx]; decide)
                                  rw [arrowScanAux_else s (fS+1) i c (by omega) hg h3 h4 h5 h6 h5' h6']
                                  refine ih _ _ _ _ fL fS ?_ ?_ ?_ <;> omega
                            · rename_i hg2
                              have h5' : ¬(c = '-' ∧ s.get? (i+1) = some '>') :=
                                fun h => by rw [hg2] at h; exact Option.noConfusion h.2
                              have h6' : ¬(c = '-' ∧ s.get? (i+1) = some '-') :=
                                fun h => by rw [hg2] at h; exact Option.noConfusion h.2
                              rw [arrowScanAux_else s (fS+1) i c (by omega) hg h3 h4 h5 h6 h5' h6']
                              refine ih _ _ _ _ fL fS ?_ ?_ ?_ <;> omega
                          · rw [if_neg h9]
                            by_cases h10 : is_punct_char c = true
                            · rw [if_pos h10]
                              rw [arrowScanAux_plain s (fS+1) i c (by omega) hg
                                (punctChar_plain c h10)]
                              refine ih _ _ _ _ fL fS ?_ ?_ ?_ <;> omega
                            · rw [if_neg h10]
                              have hplain : PlainChar c :=
                                ⟨h3, fun hc => h9 (by rw [hc]; decide), h6,
                                 fun hc => h9 (by rw [hc]; decide)⟩
                              rw [arrowScanAux_plain s (fS+1) i c (by omega) hg hplain]
                              refine ih _ _ _ _ fL fS ?_ ?_ ?_ <;> omega

/-- C2 (counterexample): the input `-->` contains `->` outside any
comment or string literal, yet the lexer does not abort: the greedy
two-character-operator match consumes `--` first, so the `>` never
follows a fresh `-`, and the whole translation succeeds. -/
theorem C2_counterexample :
    arrowOutsideCommentOrString ("-->".data) = true ∧
    lexFails ("-->".data) = false ∧
    translateSucceeds "-->" = true :=
  ⟨rfl, rfl, rfl⟩

/-- C2 (amended): the lexer aborts the translation (the source's
`exit(2)`) exactly when the scan it actually performs sees a `->`: a
left-to-right walk that skips `//` comments to the end of line, `/* */`
comments to their closer, string literals to their closing quote, and
additionally skips `#` lines entirely and consumes `--` pairs greedily
(so the tail of `-->` is never flagged).  Consequently the whole
per-file translation produces an output exactly when that scan of the
normalized input finds no such `->`. -/
theorem C2_arrow_exit :
    (∀ s : List Char, lexFails s = hasForbiddenArrow s) ∧
    (∀ input : String,
      translateSucceeds input =
        !hasForbiddenArrow (preprocess_physical_lines input.data)) := by
  have hmain : ∀ s : List Char, lexFails s = hasForbiddenArrow s := by
    intro s
    have h := lex_arrow_lockstep s s.length 0 1 1 [] (s.length+1) (s.length+1)
      (by omega) (by omega) (by omega)
    have h1 : lexFails s = isLexErr (lexAux (s.length+1) s 0 1 1 []) := by
      cases he : lexAux (s.length+1) s 0 1 1 [] with
      | error e => simp only [lexFails, lex, he, isLexErr]
      | ok toks => simp only [lexFails, lex, he, isLexErr]
    rw [h1, h]
    rfl
  refine ⟨hmain, ?_⟩
  intro input
  rcases he : lex (preprocess_physical_lines input.data) with e | toks
  · have hforb : hasForbiddenArrow (preprocess_physical_lines input.data) = true := by
      rw [← hmain]
      simp only [lexFails, he]
    simp only [translateSucceeds, translate, he, hforb, Bool.not_true]
  · have hforb : hasForbiddenArrow (preprocess_physical_lines input.data) = false := by
      rw [← hmain]
      simp only [lexFails, he]
    simp only [translateSucceeds, translate, he, hforb, Bool.not_false]

end CPlus
